import Mathlib

/-!
Verification of the `incoming-patient-check` enrichment-and-reconciliation
pipeline (Python sources under `services/`).

Shallow embedding conventions:
* `datetime` instants are modelled as `Int` (seconds); `timedelta(days = d)`
  is `86400 * d`.  Ordering of `Int` mirrors ordering of `datetime`.
* Calls into the Python standard library that can fail are modelled as
  explicit function parameters:
  - `parseDate : String → Option Int` models the `datetime.fromisoformat` /
    `strptime` parsing used at the various call sites (`none` = the call
    raises, i.e. the string is unparsable);
  - `pyInt : String → Option Int` models the `int(...)` conversion;
  - `pyHash : String → Int` models the builtin `hash` on strings, which in
    CPython is salted with a per-process random seed (so it is a fixed
    function within one process, but different processes may get different
    functions).
* MySQL rows live in a `List DbRow`; cursors/transactions become explicit
  state passing, and `cursor.rowcount` for an `UPDATE` is modelled as the
  number of key-matching rows.
* Python `dict` objects (the serialized visit map) are association lists
  `List (String × TransDetail)` built with an insert-or-overwrite operation,
  which reproduces dict key semantics including insertion order.
-/

namespace CronJops

/-- Pydantic model `Transaction` (`models/data_models.py`): one visit record
returned by the history endpoint.  All fields are required strings. -/
structure Transaction where
  PtID : String
  DrID : String
  DrName : String
  DrTitleName : String
  DeptID : String
  DeptName : String
  BranchID : String
  BranchName : String
  TransactionDate : String
deriving Repr, DecidableEq

/-- Pydantic model `PatientDetail`: the identity returned by the
identity-by-phone endpoint. -/
structure PatientDetail where
  UPN : String
  TCKNo : String
  PassportNo : String
  Name : String
  Surname : String
  FatherName : String
  Gender : String
  BirthDate : String
  PhoneNumber : String
  Email : String
deriving Repr, DecidableEq

/-- Pydantic model `PatientData`: a candidate contact read from the tenant
store. -/
structure PatientData where
  userPatientId : Int
  chatType : Option String
  language : Option String
  phoneNumber : String
deriving Repr, DecidableEq

/-- Pydantic model `EnrichedPatientData`: candidate plus identity, filtered
visit history and derived flags.  `ilkMesajTarihi` is the first-contact
timestamp. -/
structure EnrichedPatientData where
  userPatientId : Int
  chatType : Option String := none
  language : Option String := none
  phoneNumber : String
  patientDetails : Option PatientDetail := none
  transactions : List Transaction := []
  transactionCount : Nat := 0
  patientFound : Bool := false
  transactionsFound : Bool := false
  ilkMesajTarihi : Option Int := none
deriving Repr, DecidableEq

/-- Pydantic model `PatientDetailResponse`. -/
structure PatientDetailResponse where
  patients : List PatientDetail
deriving Repr, DecidableEq

/-- Pydantic model `TransactionResponse`. -/
structure TransactionResponse where
  transactions : List Transaction
  total_count : Int
deriving Repr, DecidableEq

/-! ## TransactionWindowFilter (`hiys_api_service.py`, `_filter_recent_transactions`)

The Python loop skips a transaction when its `TransactionDate` string is
empty, or fails to parse, or is before `first_message_date`, or falls
outside `[end_date - timedelta(days = days_back), end_date]` where
`end_date = datetime.now()`. -/

/-- One iteration of the loop body of `_filter_recent_transactions`:
`true` iff the transaction is appended to `filtered_transactions`. -/
def keep_recent_transaction (parseDate : String → Option Int)
    (start_date end_date : Int) (first_message_date : Option Int)
    (t : Transaction) : Bool :=
  if t.TransactionDate = "" then false
  else
    match parseDate t.TransactionDate with
    | none => false
    | some d =>
      match first_message_date with
      | some f => if d < f then false else decide (start_date ≤ d ∧ d ≤ end_date)
      | none => decide (start_date ≤ d ∧ d ≤ end_date)

/-- Embeds `HIYSAPIService._filter_recent_transactions`.  `now` is the value of
`datetime.now()` taken at entry (`end_date`); `start_date` is
`now - timedelta(days = days_back)`. -/
def filter_recent_transactions (parseDate : String → Option Int) (now : Int)
    (transactions : List Transaction) (days_back : Int)
    (first_message_date : Option Int) : List Transaction :=
  transactions.filter
    (keep_recent_transaction parseDate (now - days_back * 86400) now first_message_date)

/-! ## EnrichmentClient response handling (`hiys_api_service.py`) -/

/-- The decoded JSON body a successful `_make_request` may return for the
identity-by-phone endpoint: the optional `error` / `message` / `patients`
keys the code inspects (`none` = key absent). -/
structure RawDetailResult where
  error : Option Bool
  message : Option String
  patients : Option (List PatientDetail)
deriving Repr, DecidableEq

/-- The decoded JSON body for the history endpoint (`transactions` and
`total_count` keys; both must be present for
`TransactionResponse(**result)` to validate). -/
structure RawTransResult where
  transactions : Option (List Transaction)
  total_count : Option Int
deriving Repr, DecidableEq

/-- Embeds `HIYSAPIService.get_patient_details`: given the outcome of
`_make_request` (`none` = request failed after retries): returns `None` on
a structured error response (`error` key present and `True`) and when the
`patients` key is absent or empty. -/
def get_patient_details (result : Option RawDetailResult) :
    Option PatientDetailResponse :=
  match result with
  | none => none
  | some r =>
    if r.error = some true then none
    else
      match r.patients with
      | some (p :: ps) => some ⟨p :: ps⟩
      | _ => none

/-- Embeds `HIYSAPIService.get_patient_transactions`.  `pyInt` models the
`int(app_id)` / `int(upn)` conversions in the payload (a `ValueError` is
caught by the surrounding `except`, yielding `None`); `api` models the
endpoint, keyed by the converted `(appId, upn)`.  A response lacking the
`transactions` key yields `None`; a missing `total_count` makes the
pydantic constructor raise, also yielding `None`. -/
def get_patient_transactions (pyInt : String → Option Int)
    (api : Int → Int → Option RawTransResult) (app_id upn : String) :
    Option TransactionResponse :=
  match pyInt app_id, pyInt upn with
  | some a, some u =>
    (match api a u with
     | none => none
     | some r =>
       match r.transactions, r.total_count with
       | some ts, some c => some ⟨ts, c⟩
       | _, _ => none)
  | _, _ => none

/-- Constant `RECENT_TRANSACTIONS_DAYS` (`config/constants.py`). -/
def RECENT_TRANSACTIONS_DAYS : Int := 90

/-- Embeds `HIYSAPIService.enrich_patient_data`.  `detailResult` is the decoded
body returned by `_make_request` for the identity lookup of this
candidate's phone; `transApi` the history endpoint; `first_message_date`
the best-effort result of
`database_service.get_first_message_date_for_patient` (absence or an
exception both yield `None`). -/
def enrich_patient_data (parseDate : String → Option Int)
    (pyInt : String → Option Int) (now : Int)
    (detailResult : Option RawDetailResult)
    (transApi : Int → Int → Option RawTransResult)
    (first_message_date : Option Int)
    (patient_data : PatientData) (app_id : String) :
    Option EnrichedPatientData :=
  match get_patient_details detailResult with
  | none => none
  | some resp =>
    match resp.patients with
    | [] => none
    | patient_detail :: _ =>
      match get_patient_transactions pyInt transApi app_id patient_detail.UPN with
      | none => none
      | some tresp =>
        if tresp.transactions.isEmpty then none
        else
          let recent := filter_recent_transactions parseDate now
            tresp.transactions RECENT_TRANSACTIONS_DAYS first_message_date
          if recent.isEmpty then none
          else some
            { userPatientId := patient_data.userPatientId
              chatType := patient_data.chatType
              language := patient_data.language
              phoneNumber := patient_data.phoneNumber
              patientDetails := some patient_detail
              transactions := recent
              transactionCount := recent.length
              patientFound := true
              transactionsFound := true
              ilkMesajTarihi := first_message_date }

/-! ## Retry policy (`hiys_api_service.py`, `_make_request`)

One HTTP attempt ends in one of the outcomes below; `transport attempt`
gives the outcome of attempt number `attempt` (1-based, as in the Python
`for attempt in range(1, self.max_retries + 1)`).  The second component of
the result collects the arguments of the `time.sleep` calls, in order
(`request_delay` is a float, modelled as `ℚ`). -/

/-- Outcome of one `self.session.post` + `raise_for_status` + `.json()`
round, by the `except` clause that would catch it. -/
inductive ReqOutcome (α : Type) where
  | success (result : α)
  | timeout
  | httpError (status : Option Nat)
  | connectionError
  | requestError
  | otherError
deriving Repr, DecidableEq

/-- Constant `HTTP_CLIENT_ERROR_START` (`config/constants.py`). -/
def HTTP_CLIENT_ERROR_START : Nat := 400
/-- Constant `HTTP_CLIENT_ERROR_END` (`config/constants.py`). -/
def HTTP_CLIENT_ERROR_END : Nat := 500

/-- The retry loop of `_make_request`, from attempt number `attempt` on.
Returns the result together with the trace of `time.sleep` arguments. -/
def make_request_loop {α : Type} (transport : Nat → ReqOutcome α)
    (max_retries : Nat) (request_delay : ℚ) (attempt : Nat) :
    Option α × List ℚ :=
  if attempt > max_retries then (none, [])
  else
    match transport attempt with
    | .success r => (some r, [request_delay])
    | .timeout =>
      if attempt = max_retries then (none, [])
      else
        let rest := make_request_loop transport max_retries request_delay (attempt + 1)
        (rest.1, request_delay * attempt :: rest.2)
    | .httpError status =>
      (match status with
       | some code =>
         if HTTP_CLIENT_ERROR_START ≤ code ∧ code < HTTP_CLIENT_ERROR_END then (none, [])
         else if attempt = max_retries then (none, [])
         else
           let rest := make_request_loop transport max_retries request_delay (attempt + 1)
           (rest.1, request_delay * attempt :: rest.2)
       | none =>
         if attempt = max_retries then (none, [])
         else
           let rest := make_request_loop transport max_retries request_delay (attempt + 1)
           (rest.1, request_delay * attempt :: rest.2))
    | .connectionError =>
      if attempt = max_retries then (none, [])
      else
        let rest := make_request_loop transport max_retries request_delay (attempt + 1)
        (rest.1, request_delay * attempt :: rest.2)
    | .requestError =>
      if attempt = max_retries then (none, [])
      else
        let rest := make_request_loop transport max_retries request_delay (attempt + 1)
        (rest.1, request_delay * attempt :: rest.2)
    | .otherError => (none, [])
termination_by max_retries + 1 - attempt
decreasing_by all_goals omega

/-- Embeds `HIYSAPIService._make_request`: the loop starts at attempt 1. -/
def make_request {α : Type} (transport : Nat → ReqOutcome α)
    (max_retries : Nat) (request_delay : ℚ) : Option α × List ℚ :=
  make_request_loop transport max_retries request_delay 1

/-! ## Batch enrichment (`hiys_api_service.py`, `process_batch`) -/

/-- The chunking `for i in range(0, total_patients, batch_size)` with
`batch = patients[i:i + batch_size]`.  A `batch_size` of 0 raises
`ValueError` in Python; we only use this with positive sizes. -/
def chunkList {α : Type} (batch_size : Nat) : List α → List (List α)
  | [] => []
  | x :: xs =>
    if batch_size = 0 then []
    else (x :: xs).take batch_size :: chunkList batch_size ((x :: xs).drop batch_size)
termination_by xs => xs.length + 1
decreasing_by simp; omega

/-- Embeds `HIYSAPIService.process_batch`: enrich every patient, collecting the
non-`None` results and counting the rest as skipped.  `raises p` models an
unexpected exception out of `enrich_patient_data` for `p` (caught and also
counted as skipped). -/
def process_batch (enrichF : PatientData → Option EnrichedPatientData)
    (raises : PatientData → Bool) (patients : List PatientData)
    (batch_size : Nat) : List EnrichedPatientData × Nat :=
  (chunkList batch_size patients).foldl
    (fun acc batch =>
      batch.foldl
        (fun acc p =>
          if raises p then (acc.1, acc.2 + 1)
          else
            match enrichF p with
            | some e => (acc.1 ++ [e], acc.2)
            | none => (acc.1, acc.2 + 1))
        acc)
    ([], 0)

/-! ## Decimal rendering of numbers

Python's f-strings render integers in decimal (`f"tx_{i}_{h}"`).  We embed
that rendering explicitly, fuel-structured so that it reduces by `decide`. -/

/-- Decimal digit character for a digit value (values ≥ 9 all map to `'9'`;
only called with values < 10). -/
def digitChar : Nat → Char
  | 0 => '0'
  | 1 => '1'
  | 2 => '2'
  | 3 => '3'
  | 4 => '4'
  | 5 => '5'
  | 6 => '6'
  | 7 => '7'
  | 8 => '8'
  | _ => '9'

/-- Digit accumulation loop for decimal rendering (fuel-structured; correct
whenever `n ≤ fuel`). -/
def natDigitsGo : Nat → Nat → List Char → List Char
  | 0, _, acc => acc
  | fuel + 1, n, acc =>
    if n = 0 then acc
    else natDigitsGo fuel (n / 10) (digitChar (n % 10) :: acc)

/-- Decimal rendering of a natural number, as Python `str` renders a
non-negative `int`. -/
def natDecimalRepr (n : Nat) : String :=
  if n = 0 then "0" else ⟨natDigitsGo n n []⟩

/-- Reads a digit string back to a number (proof tool for injectivity of
`natDecimalRepr`). -/
def parseDigitsFrom (a : Nat) (l : List Char) : Nat :=
  l.foldl (fun a c => a * 10 + (c.toNat - 48)) a

/-! ## Python dict of serialized visits -/

/-- One value of the serialized visit map: the per-visit JSON object built
by `_save_patient_data_to_db` and re-read by
`_clean_transactions_for_record` (`none` = key absent in the JSON). -/
structure TransDetail where
  TransactionID : Option String := none
  PtID : Option String := none
  DrID : Option String := none
  DrName : Option String := none
  DrTitleName : Option String := none
  DeptID : Option String := none
  DeptName : Option String := none
  BranchID : Option String := none
  BranchName : Option String := none
  TransactionDate : Option String := none
  ProcessedAt : Option String := none
deriving Repr, DecidableEq

/-- Python `d[k] = v` on a dict represented as an ordered association
list: overwrite in place if the key exists, else append. -/
def dictInsert {β : Type} (m : List (String × β)) (k : String) (v : β) :
    List (String × β) :=
  if m.any (fun p => p.1 = k) then m.map (fun p => if p.1 = k then (k, v) else p)
  else m ++ [(k, v)]

/-- Result of `json.loads` on a stored `transactionDetails` text:
undecodable text, a non-dict value, or a dict of visit entries. -/
inductive TransJson where
  | invalid
  | notDict
  | dict (entries : List (String × TransDetail))
deriving Repr, DecidableEq

/-- Synthesized visit id `f"tx_{i}_{hash(f'{transaction_date}_{dr_name}') % 100000}"`
(`_save_patient_data_to_db`).  The pydantic `Transaction` model has no
`TransactionID` or `ID` field, so `getattr(t, 'TransactionID', None) or
getattr(t, 'ID', None)` is always `None` and the id is always synthesized.
Python `%` with a positive modulus is non-negative, matching `Int.emod`. -/
def synth_transaction_id (pyHash : String → Int) (i : Nat) (t : Transaction) :
    String :=
  "tx_" ++ natDecimalRepr i ++ "_" ++
    natDecimalRepr ((pyHash (t.TransactionDate ++ "_" ++ t.DrName)).emod 100000).toNat

/-- The per-visit JSON object stored under the synthesized id
(`transactions_dict[str(transaction_id)] = {...}`); `nowIso` is
`datetime.now().isoformat()` for the `ProcessedAt` field. -/
def writer_trans_detail (pyHash : String → Int) (nowIso : String) (i : Nat)
    (t : Transaction) : TransDetail :=
  { TransactionID := some (synth_transaction_id pyHash i t)
    PtID := some t.PtID
    DrID := some t.DrID
    DrName := some t.DrName
    DrTitleName := some t.DrTitleName
    DeptID := some t.DeptID
    DeptName := some t.DeptName
    BranchID := some t.BranchID
    BranchName := some t.BranchName
    TransactionDate := some t.TransactionDate
    ProcessedAt := some nowIso }

/-- The `for i, t in enumerate(transactions)` serialization loop of
`_save_patient_data_to_db`, from index `i` with accumulated dict `m`. -/
def serialize_transactions_aux (pyHash : String → Int) (nowIso : String) :
    Nat → List Transaction → List (String × TransDetail) →
    List (String × TransDetail)
  | _, [], m => m
  | i, t :: ts, m =>
    serialize_transactions_aux pyHash nowIso (i + 1) ts
      (dictInsert m (synth_transaction_id pyHash i t)
        (writer_trans_detail pyHash nowIso i t))

/-- Builds `transactions_dict` of `_save_patient_data_to_db`. -/
def serialize_transactions (pyHash : String → Int) (nowIso : String)
    (ts : List Transaction) : List (String × TransDetail) :=
  serialize_transactions_aux pyHash nowIso 0 ts []

/-! ## The tenant-store row (`incomingpatientshiys` table) -/

/-- One row of `incomingpatientshiys`, restricted to the columns the
embedded code reads or writes.  `transactionDetails` is `none` for SQL
`NULL`, otherwise the decoded JSON text. -/
structure DbRow where
  id : Nat
  processTimestamp : Int
  appId : String
  userPatientId : Int
  chatType : String
  language : String
  phoneNumber : String
  hiysUpn : Option String
  hastaAdi : Option String
  hastaSoyadi : Option String
  cinsiyet : Option String
  dogumTarihi : Option String
  email : Option String
  toplamIslemSayisi : Nat
  hiysHastaBulundu : Bool
  hiysIslemBulundu : Bool
  sonIslemTarihi : Option Int
  sonDoktorAdi : Option String
  sonPoliklinik : Option String
  sonBrans : Option String
  ilkMesajTarihi : Option Int
  transactionDetails : Option TransJson
deriving Repr, DecidableEq

/-- Match of the `WHERE userPatientId = %s AND appId = %s` key. -/
def rowKeyMatches (userPatientId : Int) (appId : String) (r : DbRow) : Bool :=
  decide (r.userPatientId = userPatientId ∧ r.appId = appId)

/-- Auto-increment `id` for an inserted row. -/
def freshRowId (store : List DbRow) : Nat :=
  (store.map (fun r => r.id)).foldl max 0 + 1

/-- Python `x or default` on an optional string (`None` and `''` are both
falsy). -/
def pyOrStr (o : Option String) (dflt : String) : String :=
  match o with
  | some s => if s = "" then dflt else s
  | none => dflt

/-! ## ReconciliationWriter (`database_save_service.py`, `_save_patient_data_to_db`) -/

/-- The writer's own 90-day recency pass: keep a transaction whose
`TransactionDate` is non-empty, parses, and is `>= cutoff_date` where
`cutoff_date = datetime.now() - timedelta(days=90)`; parse errors are
skipped by the `except` clause. -/
def writer_recent_transactions (parseDate : String → Option Int)
    (cutoff : Int) (ts : List Transaction) : List Transaction :=
  ts.filter (fun t =>
    if t.TransactionDate = "" then false
    else
      match parseDate t.TransactionDate with
      | some d => decide (cutoff ≤ d)
      | none => false)

/-- Python `max(transactions, key=lambda x: x.TransactionDate or '')`:
string comparison of the date texts, first maximum wins. -/
def python_max_by_date (t0 : Transaction) (rest : List Transaction) :
    Transaction :=
  rest.foldl
    (fun best x => if best.TransactionDate < x.TransactionDate then x else best) t0

/-- Result of one `_save_patient_data_to_db` call: the store after the
cursor's statements, the boolean the function returns, and the action
string (`'inserted' | 'updated' | 'skipped' | 'failed'`). -/
structure SaveOutcome where
  store : List DbRow
  ok : Bool
  action : String
deriving Repr, DecidableEq

/-- The latest-visit summary values `(son_islem_tarihi, son_doktor_adi,
son_poliklinik, son_brans)` computed by `_save_patient_data_to_db`: the
string-maximal transaction's parsed date and fields, or — when its date
fails to parse (the `except` branch) — no date and the fields of the last
transaction. -/
def writer_latest_vals (parseDate : String → Option Int) (t0 : Transaction)
    (rest : List Transaction) :
    Option Int × Option String × Option String × Option String :=
  let latest := python_max_by_date t0 rest
  match parseDate latest.TransactionDate with
  | some d =>
    (some d, some latest.DrName, some latest.DeptName, some latest.BranchName)
  | none =>
    let last := (t0 :: rest).getLast (by simp)
    (none, some last.DrName, some last.DeptName, some last.BranchName)

/-- The `UPDATE incomingpatientshiys SET ...` of `_save_patient_data_to_db`
applied to one key-matching row. -/
def writer_updated_row (process_timestamp : Int) (count : Nat)
    (patient : EnrichedPatientData)
    (lv : Option Int × Option String × Option String × Option String)
    (tj : TransJson) (r : DbRow) : DbRow :=
  { r with
    processTimestamp := process_timestamp
    toplamIslemSayisi := count
    hiysHastaBulundu := patient.patientFound
    hiysIslemBulundu := patient.transactionsFound
    sonIslemTarihi := lv.1
    sonDoktorAdi := lv.2.1
    sonPoliklinik := lv.2.2.1
    sonBrans := lv.2.2.2
    ilkMesajTarihi := patient.ilkMesajTarihi
    transactionDetails := some tj }

/-- The `INSERT INTO incomingpatientshiys ...` row of
`_save_patient_data_to_db`. -/
def writer_new_row (id : Nat) (process_timestamp : Int) (app_id : String)
    (patient : EnrichedPatientData) (patient_details : PatientDetail)
    (count : Nat)
    (lv : Option Int × Option String × Option String × Option String)
    (tj : TransJson) : DbRow :=
  { id := id
    processTimestamp := process_timestamp
    appId := app_id
    userPatientId := patient.userPatientId
    chatType := pyOrStr patient.chatType "whatsapp"
    language := pyOrStr patient.language "TR"
    phoneNumber := patient.phoneNumber
    hiysUpn := some patient_details.UPN
    hastaAdi := some patient_details.Name
    hastaSoyadi := some patient_details.Surname
    cinsiyet := some patient_details.Gender
    dogumTarihi := some patient_details.BirthDate
    email := some patient_details.Email
    toplamIslemSayisi := count
    hiysHastaBulundu := patient.patientFound
    hiysIslemBulundu := patient.transactionsFound
    sonIslemTarihi := lv.1
    sonDoktorAdi := lv.2.1
    sonPoliklinik := lv.2.2.1
    sonBrans := lv.2.2.2
    ilkMesajTarihi := patient.ilkMesajTarihi
    transactionDetails := some tj }

/-- Embeds `DatabaseSaveService._save_patient_data_to_db`.  `now` is the
value of `datetime.now()` used for the 90-day cutoff, `nowIso` its
`isoformat()` used in `ProcessedAt`, `process_timestamp` the parsed run
timestamp `dt`.  An `UPDATE`'s `cursor.rowcount` is the number of
key-matching rows. -/
def save_patient_data_to_db (parseDate : String → Option Int)
    (pyHash : String → Int) (now : Int) (nowIso : String)
    (store : List DbRow) (process_timestamp : Int) (app_id : String)
    (patient : EnrichedPatientData) : SaveOutcome :=
  if patient.patientFound = false then ⟨store, true, "skipped"⟩
  else if patient.transactionsFound = false ∨ patient.transactions = [] then
    ⟨store, true, "skipped"⟩
  else
    match patient.patientDetails with
    | none => ⟨store, true, "skipped"⟩
    | some patient_details =>
      match writer_recent_transactions parseDate (now - 90 * 86400)
          patient.transactions with
      | [] => ⟨store, true, "skipped"⟩
      | t0 :: rest =>
        let lv := writer_latest_vals parseDate t0 rest
        let transaction_json :=
          TransJson.dict (serialize_transactions pyHash nowIso (t0 :: rest))
        match store.find? (rowKeyMatches patient.userPatientId app_id) with
        | some _ =>
          let updated := store.map (fun r =>
            if rowKeyMatches patient.userPatientId app_id r then
              writer_updated_row process_timestamp (t0 :: rest).length patient
                lv transaction_json r
            else r)
          if (store.filter (rowKeyMatches patient.userPatientId app_id)).length = 1
          then ⟨updated, true, "updated"⟩
          else ⟨updated, false, "failed"⟩
        | none =>
          ⟨store ++ [writer_new_row (freshRowId store) process_timestamp app_id
            patient patient_details (t0 :: rest).length lv transaction_json],
           true, "inserted"⟩

/-- Decision of the writer's quality filters alone (the conditions under
which `_save_patient_data_to_db` takes a write path instead of returning
`'skipped'`). -/
def passes_quality_filters (parseDate : String → Option Int) (now : Int)
    (patient : EnrichedPatientData) : Bool :=
  patient.patientFound && patient.transactionsFound &&
    !patient.transactions.isEmpty && patient.patientDetails.isSome &&
    !(writer_recent_transactions parseDate (now - 90 * 86400)
        patient.transactions).isEmpty

/-- Number of rows of `store` carrying the key `(appId, userPatientId)`. -/
def countKey (store : List DbRow) (userPatientId : Int) (appId : String) : Nat :=
  (store.filter (rowKeyMatches userPatientId appId)).length

/-- Repeated reconciliation runs for one contact: apply
`_save_patient_data_to_db` once per run timestamp in `stamps`, threading
the store; returns the final store and the action reported by each run. -/
def run_saves (parseDate : String → Option Int) (pyHash : String → Int)
    (now : Int) (nowIso : String) (app_id : String)
    (patient : EnrichedPatientData) :
    List Int → List DbRow → List DbRow × List String
  | [], store => (store, [])
  | ts :: stamps, store =>
    let r := save_patient_data_to_db parseDate pyHash now nowIso store ts
      app_id patient
    let rest := run_saves parseDate pyHash now nowIso app_id patient stamps r.store
    (rest.1, r.action :: rest.2)

/-! ## Batch writer (`database_save_service.py`, `save_batch_to_db_optimized`) -/

/-- Result of `save_batch_to_db_optimized`: the committed store, how many
`connection.commit()` calls ran, and the returned counters
`(new_records_saved, updated_records, skipped, failed)`. -/
structure BatchOutcome where
  committed : List DbRow
  commits : Nat
  new_records : Nat
  updated_records : Nat
  skipped : Nat
  failed : Nat
deriving Repr, DecidableEq

/-- The per-patient loop of `save_batch_to_db_optimized` on the pending
(uncommitted) store; `raises i` models an unexpected exception while
processing patient number `i` (caught by the inner `except`, counted as
failed).  Returns the pending store and the four counters. -/
def save_batch_loop (parseDate : String → Option Int) (pyHash : String → Int)
    (now : Int) (nowIso : String) (process_timestamp : Int) (app_id : String)
    (raises : Nat → Bool) :
    Nat → List EnrichedPatientData → List DbRow × (Nat × Nat × Nat × Nat) →
    List DbRow × (Nat × Nat × Nat × Nat)
  | _, [], acc => acc
  | i, p :: ps, (pending, (n, u, s, f)) =>
    if raises i then
      save_batch_loop parseDate pyHash now nowIso process_timestamp app_id
        raises (i + 1) ps (pending, (n, u, s, f + 1))
    else
      let r := save_patient_data_to_db parseDate pyHash now nowIso pending
        process_timestamp app_id p
      let counters :=
        if r.ok then
          if r.action = "inserted" then (n + 1, u, s, f)
          else if r.action = "updated" then (n, u + 1, s, f)
          else if r.action = "skipped" then (n, u, s + 1, f)
          else (n, u, s, f)
        else (n, u, s, f + 1)
      save_batch_loop parseDate pyHash now nowIso process_timestamp app_id
        raises (i + 1) ps (r.store, counters)

/-- Embeds `DatabaseSaveService.save_batch_to_db_optimized`.  `connectOk`
models `_get_db_connection` succeeding; `commitOk` models
`connection.commit()` succeeding.  A failed connect returns with zero
counters and no store change; a failed commit rolls the whole batch back
(committed store = input store) but still returns the counters accumulated
by the loop; a successful run commits exactly once. -/
def save_batch_to_db_optimized (parseDate : String → Option Int)
    (pyHash : String → Int) (now : Int) (nowIso : String)
    (connectOk commitOk : Bool) (raises : Nat → Bool)
    (process_timestamp : Int) (app_id : String)
    (patients : List EnrichedPatientData) (store : List DbRow) : BatchOutcome :=
  if connectOk = false then ⟨store, 0, 0, 0, 0, 0⟩
  else
    let r := save_batch_loop parseDate pyHash now nowIso process_timestamp
      app_id raises 0 patients (store, (0, 0, 0, 0))
    if commitOk then ⟨r.1, 1, r.2.1, r.2.2.1, r.2.2.2.1, r.2.2.2.2⟩
    else ⟨store, 0, r.2.1, r.2.2.1, r.2.2.2.1, r.2.2.2.2⟩

/-! ## RetentionCleaner (`data_cleanup_service.py`) -/

/-- Phase A deletion condition (`_delete_old_single_transaction_records`):
`toplamIslemSayisi = 1 AND sonIslemTarihi < cutoff`.  A SQL `NULL`
timestamp compares as unknown, so such rows are never deleted. -/
def phaseA_delete_cond (cutoff : Int) (r : DbRow) : Bool :=
  decide (r.toplamIslemSayisi = 1) &&
    match r.sonIslemTarihi with
    | some d => decide (d < cutoff)
    | none => false

/-- Embeds `_delete_old_single_transaction_records`: deletes every matching
row and returns `cursor.rowcount`, the number of deleted rows. -/
def delete_old_single_transaction_records (cutoff : Int)
    (store : List DbRow) : List DbRow × Nat :=
  (store.filter (fun r => !phaseA_delete_cond cutoff r),
   (store.filter (phaseA_delete_cond cutoff)).length)

/-- The row projection fetched by Phase B's `SELECT id, userPatientId,
toplamIslemSayisi, transactionDetails`. -/
structure CleanupRecord where
  id : Nat
  userPatientId : Int
  toplamIslemSayisi : Nat
  transactionDetails : TransJson
deriving Repr, DecidableEq

/-- The `result` dict built by `_clean_transactions_for_record`. -/
structure CleanResult where
  has_changes : Bool
  new_transaction_count : Nat
  new_transaction_json : TransJson
  removed_count : Nat
  latest_transaction_date : Option Int
  latest_doctor : Option String
  latest_dept : Option String
  latest_branch : Option String
deriving Repr, DecidableEq

/-- The per-entry loop of `_clean_transactions_for_record` over the decoded
visit map.  State: the kept dict, the removed count, and the running
latest (date, entry) among kept entries with parsable dates.  An entry
with a missing or empty date, or whose date fails to parse (the `except`
branch), is kept. -/
def clean_entries_loop (parseDate : String → Option Int) (cutoff : Int) :
    List (String × TransDetail) →
    List (String × TransDetail) × Nat × Option Int × Option TransDetail →
    List (String × TransDetail) × Nat × Option Int × Option TransDetail
  | [], st => st
  | (tid, td) :: rest, (m, removed, latestD, latestT) =>
    let st :=
      match td.TransactionDate with
      | some s =>
        if s = "" then (dictInsert m tid td, removed, latestD, latestT)
        else
          match parseDate s with
          | some d =>
            if cutoff ≤ d then
              let keep := dictInsert m tid td
              match latestD with
              | none => (keep, removed, some d, some td)
              | some l =>
                if l < d then (keep, removed, some d, some td)
                else (keep, removed, latestD, latestT)
            else (m, removed + 1, latestD, latestT)
          | none => (dictInsert m tid td, removed, latestD, latestT)
      | none => (dictInsert m tid td, removed, latestD, latestT)
    clean_entries_loop parseDate cutoff rest st

/-- Embeds `_clean_transactions_for_record`.  Undecodable or non-dict
`transactionDetails` fall into the `except` / `isinstance` guards and
return the initial result unchanged.  `latest_*` summary fields are only
filled when entries were removed and a latest kept entry exists, else
they stay `None` (cleared on update). -/
def clean_transactions_for_record (parseDate : String → Option Int)
    (cutoff : Int) (record : CleanupRecord) : CleanResult :=
  let init : CleanResult :=
    { has_changes := false
      new_transaction_count := record.toplamIslemSayisi
      new_transaction_json := record.transactionDetails
      removed_count := 0
      latest_transaction_date := none
      latest_doctor := none
      latest_dept := none
      latest_branch := none }
  match record.transactionDetails with
  | .invalid => init
  | .notDict => init
  | .dict entries =>
    let st := clean_entries_loop parseDate cutoff entries ([], 0, none, none)
    if st.1.length = entries.length then { init with removed_count := st.2.1 }
    else
      match st.2.2.2 with
      | some td =>
        { has_changes := true
          new_transaction_count := st.1.length
          new_transaction_json := .dict st.1
          removed_count := st.2.1
          latest_transaction_date := st.2.2.1
          latest_doctor := td.DrName
          latest_dept := td.DeptName
          latest_branch := td.BranchName }
      | none =>
        { has_changes := true
          new_transaction_count := st.1.length
          new_transaction_json := .dict st.1
          removed_count := st.2.1
          latest_transaction_date := none
          latest_doctor := none
          latest_dept := none
          latest_branch := none }

/-- The `UPDATE incomingpatientshiys SET ... WHERE id = %s` issued by
`_cleanup_old_transactions_in_records` for a changed record. -/
def apply_clean_update (res : CleanResult) (r : DbRow) : DbRow :=
  { r with
    toplamIslemSayisi := res.new_transaction_count
    transactionDetails := some res.new_transaction_json
    sonIslemTarihi := res.latest_transaction_date
    sonDoktorAdi := res.latest_doctor
    sonPoliklinik := res.latest_dept
    sonBrans := res.latest_branch }

/-- Embeds `_cleanup_old_transactions_in_records`: rows matching
`toplamIslemSayisi > 1 AND transactionDetails IS NOT NULL AND
transactionDetails != '{}'` (the text `'{}'` is the encoding of the empty
dict) are cleaned in place; changed rows are updated by `id`, nothing is
deleted.  Returns the new store and `(cleaned_records,
cleaned_transactions)`. -/
def cleanup_old_transactions_in_records (parseDate : String → Option Int)
    (cutoff : Int) : List DbRow → List DbRow × Nat × Nat
  | [] => ([], 0, 0)
  | r :: rs =>
    let rest := cleanup_old_transactions_in_records parseDate cutoff rs
    match r.transactionDetails with
    | some j =>
      if r.toplamIslemSayisi > 1 ∧ j ≠ .dict [] then
        let res := clean_transactions_for_record parseDate cutoff
          ⟨r.id, r.userPatientId, r.toplamIslemSayisi, j⟩
        if res.has_changes then
          (apply_clean_update res r :: rest.1, rest.2.1 + 1,
           rest.2.2 + res.removed_count)
        else (r :: rest.1, rest.2)
      else (r :: rest.1, rest.2)
    | none => (r :: rest.1, rest.2)

/-- Embeds `cleanup_old_data` for one tenant store: Phase A deletion, then
Phase B in-blob pruning, one commit.  Returns the final store and
`(deleted_records, cleaned_records, cleaned_transactions)`. -/
def cleanup_old_data (parseDate : String → Option Int) (cutoff : Int)
    (store : List DbRow) : List DbRow × Nat × Nat × Nat :=
  let a := delete_old_single_transaction_records cutoff store
  let b := cleanup_old_transactions_in_records parseDate cutoff a.1
  (b.1, a.2, b.2.1, b.2.2)

/-! ## Specification-side helper predicates and sample inputs -/

/-- Retention predicate of Phase B as the claim states it: an entry is
retained unless its timestamp is present, non-empty, parsable, and
strictly before the cutoff. -/
def cleaner_keeps (parseDate : String → Option Int) (cutoff : Int)
    (td : TransDetail) : Bool :=
  match td.TransactionDate with
  | none => true
  | some s =>
    if s = "" then true
    else
      match parseDate s with
      | none => true
      | some d => decide (cutoff ≤ d)

/-- The kept entries of a visit map that carry a parsable in-window date,
paired with that date (the candidates for the recomputed latest-visit
summary). -/
def kept_parsed (parseDate : String → Option Int) (cutoff : Int)
    (entries : List (String × TransDetail)) : List (Int × TransDetail) :=
  entries.filterMap (fun e =>
    match e.2.TransactionDate with
    | some s =>
      if s = "" then none
      else
        match parseDate s with
        | some d => if cutoff ≤ d then some (d, e.2) else none
        | none => none
    | none => none)

/-- Evolution of the `(latest_date, latest_transaction)` pair of
`_clean_transactions_for_record` over the in-window parsable entries. -/
def latest_fold : List (Int × TransDetail) →
    Option Int × Option TransDetail → Option Int × Option TransDetail
  | [], st => st
  | (d, td) :: rest, (lD, lT) =>
    latest_fold rest
      (match lD with
       | none => (some d, some td)
       | some l => if l < d then (some d, some td) else (lD, lT))

/-- Retryable outcomes as the claim classifies them: timeout, connection
failure, or a server-side (5xx) HTTP error. -/
def retryable_outcome {α : Type} : ReqOutcome α → Bool
  | .timeout => true
  | .connectionError => true
  | .httpError (some code) => decide (500 ≤ code)
  | _ => false

/-- Phase B scope of one row, as selected by the driver's `WHERE` clause. -/
def phaseB_in_scope (r : DbRow) : Bool :=
  match r.transactionDetails with
  | some j => decide (r.toplamIslemSayisi > 1 ∧ j ≠ .dict [])
  | none => false

/-- Whether Phase B updates a given row (in scope and with removals). -/
def phaseB_row_changed (parseDate : String → Option Int) (cutoff : Int)
    (r : DbRow) : Bool :=
  match r.transactionDetails with
  | some j =>
    if r.toplamIslemSayisi > 1 ∧ j ≠ .dict [] then
      (clean_transactions_for_record parseDate cutoff
        ⟨r.id, r.userPatientId, r.toplamIslemSayisi, j⟩).has_changes
    else false
  | none => false

/-- Number of visits Phase B prunes from a given row. -/
def phaseB_row_pruned (parseDate : String → Option Int) (cutoff : Int)
    (r : DbRow) : Nat :=
  match r.transactionDetails with
  | some j =>
    if r.toplamIslemSayisi > 1 ∧ j ≠ .dict [] then
      (if (clean_transactions_for_record parseDate cutoff
            ⟨r.id, r.userPatientId, r.toplamIslemSayisi, j⟩).has_changes then
        (clean_transactions_for_record parseDate cutoff
          ⟨r.id, r.userPatientId, r.toplamIslemSayisi, j⟩).removed_count
       else 0)
    else 0
  | none => 0

/-- Concrete date-parsing oracle for witnesses: reads an all-digit
timestamp text as a decimal integer, anything else is unparsable. -/
def toIntParse (s : String) : Option Int :=
  if s.data ≠ [] ∧ s.data.all (fun c => c.isDigit) then
    some (parseDigitsFrom 0 s.data)
  else none

/-- Sample visit record with a given timestamp text. -/
def mkT (ds : String) : Transaction :=
  ⟨"pt", "dr", "DrName", "Dr", "dep", "Dept", "br", "Branch", ds⟩

/-- Sample identity. -/
def samplePatientDetail : PatientDetail :=
  ⟨"100", "t", "p", "Ada", "Bey", "f", "F", "1990-01-01", "555", "a@b"⟩

/-- Sample enriched contact that passes the writer's quality filters when
`now = 90 * 86400` and dates are read with `toIntParse`. -/
def samplePatient : EnrichedPatientData :=
  { userPatientId := 1
    chatType := some "whatsapp"
    language := some "TR"
    phoneNumber := "555"
    patientDetails := some samplePatientDetail
    transactions := [mkT "5"]
    transactionCount := 1
    patientFound := true
    transactionsFound := true
    ilkMesajTarihi := some 0 }

/-- Proof-side unfolding of the serialization loop: the entry list it
produces when no key collides (synthesized ids embed the index, so they
never do). -/
def writer_dict_entries (pyHash : String → Int) (nowIso : String) :
    Nat → List Transaction → List (String × TransDetail)
  | _, [] => []
  | i, t :: ts =>
    (synth_transaction_id pyHash i t, writer_trans_detail pyHash nowIso i t) ::
      writer_dict_entries pyHash nowIso (i + 1) ts

/-- Sample store row with a given visit count, last-visit timestamp, and
serialized visit map. -/
def sampleRow (count : Nat) (son : Option Int) (det : Option TransJson) : DbRow :=
  { id := 1
    processTimestamp := 0
    appId := "14"
    userPatientId := 1
    chatType := "w"
    language := "TR"
    phoneNumber := "555"
    hiysUpn := none
    hastaAdi := none
    hastaSoyadi := none
    cinsiyet := none
    dogumTarihi := none
    email := none
    toplamIslemSayisi := count
    hiysHastaBulundu := true
    hiysIslemBulundu := true
    sonIslemTarihi := son
    sonDoktorAdi := none
    sonPoliklinik := none
    sonBrans := none
    ilkMesajTarihi := none
    transactionDetails := det }

/-- Sample store row for the Phase A scenarios (no visit map). -/
def sampleRowA (count : Nat) (son : Option Int) : DbRow :=
  sampleRow count son none

/-- Sample serialized visit-map entry with a timestamp text and doctor
name. -/
def mkTD (ds dr : String) : TransDetail :=
  { TransactionDate := some ds
    DrName := some dr
    DeptName := some "Dept"
    BranchName := some "Br" }

/-! ## Theorems -/

/-- C2: for every visit with a non-empty, parsable timestamp, the window
filter keeps the visit iff its timestamp lies in the inclusive interval
`[now − recencyDays, now]` and, when a first-contact timestamp is given,
the visit timestamp is not strictly earlier than it. -/
theorem window_filter_keeps_iff (parseDate : String → Option Int)
    (now days_back : Int) (fmd : Option Int) (ts : List Transaction)
    (t : Transaction) (d : Int) (hne : t.TransactionDate ≠ "")
    (hp : parseDate t.TransactionDate = some d) :
    t ∈ filter_recent_transactions parseDate now ts days_back fmd ↔
      t ∈ ts ∧ ((now - days_back * 86400 ≤ d ∧ d ≤ now) ∧
        ∀ f, fmd = some f → f ≤ d) := by
  unfold filter_recent_transactions
  rw [List.mem_filter]
  have hk : keep_recent_transaction parseDate (now - days_back * 86400) now fmd t
      = true ↔
      ((now - days_back * 86400 ≤ d ∧ d ≤ now) ∧ ∀ f, fmd = some f → f ≤ d) := by
    simp only [keep_recent_transaction, if_neg hne, hp]
    cases fmd with
    | none => simp
    | some f =>
      dsimp only
      split_ifs with h
      · simp only [Bool.false_eq_true, false_iff]
        intro hc
        have := hc.2 f rfl
        omega
      · simp only [decide_eq_true_eq]
        constructor
        · intro hw
          exact ⟨hw, fun g hg => by cases hg; omega⟩
        · intro hc
          exact hc.1
  rw [hk]

/-- Witness for C2 with `now = 10000000`, `days_back = 90` (window start
`10000000 - 90·86400 = 2224000`): a visit at exactly the window start is
kept (via the theorem); a visit one day older is dropped; with
first-contact timestamp `2224005`, a visit one second earlier is dropped
and a visit exactly at it is kept. -/
theorem window_filter_keeps_iff_witness :
    (mkT "2224000").TransactionDate ≠ "" ∧
    toIntParse (mkT "2224000").TransactionDate = some 2224000 ∧
    (mkT "2224000") ∈
      filter_recent_transactions toIntParse 10000000 [mkT "2224000"] 90 none ∧
    (mkT "2137600") ∉
      filter_recent_transactions toIntParse 10000000 [mkT "2137600"] 90 none ∧
    (mkT "2224004") ∉
      filter_recent_transactions toIntParse 10000000 [mkT "2224004"] 90 (some 2224005) ∧
    (mkT "2224005") ∈
      filter_recent_transactions toIntParse 10000000 [mkT "2224005"] 90 (some 2224005) := by
  refine ⟨by decide, by decide, ?_, by decide, by decide, by decide⟩
  exact (window_filter_keeps_iff toIntParse 10000000 90 none [mkT "2224000"]
    (mkT "2224000") 2224000 (by decide) (by decide)).mpr
    ⟨by decide, by decide, by simp⟩

/-- C6: RetentionCleaner Phase A deletes a row iff its visit count equals 1
and its recorded last-visit timestamp is strictly before the cutoff, and
the returned count plus the surviving rows make up the whole store. -/
theorem retention_phaseA_delete_iff (cutoff : Int) (store : List DbRow) :
    (∀ r, r ∈ (delete_old_single_transaction_records cutoff store).1 ↔
        r ∈ store ∧
          ¬(r.toplamIslemSayisi = 1 ∧ ∃ d, r.sonIslemTarihi = some d ∧ d < cutoff)) ∧
    (delete_old_single_transaction_records cutoff store).2 +
        (delete_old_single_transaction_records cutoff store).1.length =
      store.length := by
  have hcond : ∀ r : DbRow, phaseA_delete_cond cutoff r = true ↔
      (r.toplamIslemSayisi = 1 ∧ ∃ d, r.sonIslemTarihi = some d ∧ d < cutoff) := by
    intro r
    unfold phaseA_delete_cond
    cases hs : r.sonIslemTarihi with
    | none => simp
    | some d => simp
  constructor
  · intro r
    unfold delete_old_single_transaction_records
    rw [List.mem_filter]
    constructor
    · rintro ⟨hin, hb⟩
      refine ⟨hin, fun hc => ?_⟩
      rw [(hcond r).mpr hc] at hb
      simp at hb
    · rintro ⟨hin, hnc⟩
      refine ⟨hin, ?_⟩
      cases hcb : phaseA_delete_cond cutoff r with
      | true => exact absurd ((hcond r).mp hcb) hnc
      | false => simp
  · unfold delete_old_single_transaction_records
    have := List.length_eq_length_filter_add (l := store) (phaseA_delete_cond cutoff)
    simpa using this.symm

/-- Witness for C6: with cutoff `86400`, a single-visit row dated one day
before the cutoff (`0`) is deleted, one dated one day after (`172800`) is
kept, and the reported deleted count is 1. -/
theorem retention_phaseA_delete_iff_witness :
    (sampleRowA 1 (some 0) ∉
      (delete_old_single_transaction_records 86400
        [sampleRowA 1 (some 0), sampleRowA 1 (some 172800)]).1) ∧
    (sampleRowA 1 (some 172800) ∈
      (delete_old_single_transaction_records 86400
        [sampleRowA 1 (some 0), sampleRowA 1 (some 172800)]).1) ∧
    (delete_old_single_transaction_records 86400
        [sampleRowA 1 (some 0), sampleRowA 1 (some 172800)]).2 = 1 := by
  have h := (retention_phaseA_delete_iff 86400
    [sampleRowA 1 (some 0), sampleRowA 1 (some 172800)]).1 (sampleRowA 1 (some 0))
  refine ⟨fun hmem => ?_, by decide, by decide⟩
  have := (h.mp hmem).2
  exact this (by decide)

/-- C3: enrichment returns `None` when the identity lookup yields nothing
or a structured error / not-found response, when the history lookup yields
no transactions, or when the window filter empties the history; and every
returned value has `patientFound = true`, `transactionsFound = true` and a
non-empty filtered transaction list. -/
theorem enrich_contract (parseDate : String → Option Int)
    (pyInt : String → Option Int) (now : Int)
    (detailResult : Option RawDetailResult)
    (transApi : Int → Int → Option RawTransResult)
    (fmd : Option Int) (pd : PatientData) (app_id : String) :
    (∀ e,
      enrich_patient_data parseDate pyInt now detailResult transApi fmd pd app_id
          = some e →
      e.patientFound = true ∧ e.transactionsFound = true ∧ e.transactions ≠ []) ∧
    (detailResult = none →
      enrich_patient_data parseDate pyInt now detailResult transApi fmd pd app_id
        = none) ∧
    (∀ r, detailResult = some r →
      (r.error = some true ∨ r.patients = none ∨ r.patients = some []) →
      enrich_patient_data parseDate pyInt now detailResult transApi fmd pd app_id
        = none) ∧
    (∀ resp d rest, get_patient_details detailResult = some resp →
      resp.patients = d :: rest →
      (get_patient_transactions pyInt transApi app_id d.UPN = none →
        enrich_patient_data parseDate pyInt now detailResult transApi fmd pd app_id
          = none) ∧
      (∀ tr, get_patient_transactions pyInt transApi app_id d.UPN = some tr →
        (tr.transactions = [] →
          enrich_patient_data parseDate pyInt now detailResult transApi fmd pd
            app_id = none) ∧
        (filter_recent_transactions parseDate now tr.transactions
            RECENT_TRANSACTIONS_DAYS fmd = [] →
          enrich_patient_data parseDate pyInt now detailResult transApi fmd pd
            app_id = none))) := by
  refine ⟨?_, ?_, ?_, ?_⟩
  · intro e he
    unfold enrich_patient_data at he
    cases hd : get_patient_details detailResult with
    | none => rw [hd] at he; exact absurd he (by simp)
    | some resp =>
      rw [hd] at he
      dsimp only at he
      cases hps : resp.patients with
      | nil => rw [hps] at he; exact absurd he (by simp)
      | cons d rest =>
        rw [hps] at he
        dsimp only at he
        cases ht : get_patient_transactions pyInt transApi app_id d.UPN with
        | none => rw [ht] at he; exact absurd he (by simp)
        | some tr =>
          rw [ht] at he
          dsimp only at he
          by_cases hemp : tr.transactions.isEmpty
          · rw [if_pos hemp] at he; exact absurd he (by simp)
          · rw [if_neg hemp] at he
            by_cases hrec : (filter_recent_transactions parseDate now
                tr.transactions RECENT_TRANSACTIONS_DAYS fmd).isEmpty
            · rw [if_pos hrec] at he; exact absurd he (by simp)
            · rw [if_neg hrec] at he
              obtain rfl := Option.some.inj he
              refine ⟨rfl, rfl, ?_⟩
              simpa [List.isEmpty_iff] using hrec
  · intro h
    unfold enrich_patient_data get_patient_details
    rw [h]
  · intro r hr hcase
    unfold enrich_patient_data get_patient_details
    rw [hr]
    rcases hcase with he | hp | hp
    · simp [he]
    · by_cases herr : r.error = some true
      · simp [herr]
      · simp [herr, hp]
    · by_cases herr : r.error = some true
      · simp [herr]
      · simp [herr, hp]
  · intro resp d rest hresp hps
    constructor
    · intro ht
      unfold enrich_patient_data
      rw [hresp]
      dsimp only
      rw [hps]
      dsimp only
      rw [ht]
    · intro tr htr
      constructor
      · intro hnil
        unfold enrich_patient_data
        rw [hresp]
        dsimp only
        rw [hps]
        dsimp only
        rw [htr]
        dsimp only
        simp [hnil]
      · intro hrec
        unfold enrich_patient_data
        rw [hresp]
        dsimp only
        rw [hps]
        dsimp only
        rw [htr]
        dsimp only
        by_cases hemp : tr.transactions.isEmpty
        · rw [if_pos hemp]
        · rw [if_neg hemp]
          simp [hrec]

/-- Witness for C3: a concrete candidate whose identity and history lookups
succeed enriches to a value with both flags set and a non-empty filtered
history; the same candidate with a failed identity lookup yields `None`. -/
theorem enrich_contract_witness :
    enrich_patient_data toIntParse toIntParse (90 * 86400)
        (some ⟨some false, none, some [samplePatientDetail]⟩)
        (fun _ _ => some ⟨some [mkT "5"], some 1⟩) none
        ⟨1, some "w", some "TR", "555"⟩ "14" =
      some ⟨1, some "w", some "TR", "555", some samplePatientDetail,
        [mkT "5"], 1, true, true, none⟩ ∧
    (⟨1, some "w", some "TR", "555", some samplePatientDetail,
        [mkT "5"], 1, true, true, none⟩ : EnrichedPatientData).patientFound
        = true ∧
    (⟨1, some "w", some "TR", "555", some samplePatientDetail,
        [mkT "5"], 1, true, true, none⟩ : EnrichedPatientData).transactionsFound
        = true ∧
    (⟨1, some "w", some "TR", "555", some samplePatientDetail,
        [mkT "5"], 1, true, true, none⟩ : EnrichedPatientData).transactions ≠ [] ∧
    enrich_patient_data toIntParse toIntParse (90 * 86400) none
        (fun _ _ => some ⟨some [mkT "5"], some 1⟩) none
        ⟨1, some "w", some "TR", "555"⟩ "14" = none := by
  have hsome :
      enrich_patient_data toIntParse toIntParse (90 * 86400)
          (some ⟨some false, none, some [samplePatientDetail]⟩)
          (fun _ _ => some ⟨some [mkT "5"], some 1⟩) none
          ⟨1, some "w", some "TR", "555"⟩ "14" =
        some ⟨1, some "w", some "TR", "555", some samplePatientDetail,
          [mkT "5"], 1, true, true, none⟩ := by decide
  have hflags := (enrich_contract toIntParse toIntParse (90 * 86400)
    (some ⟨some false, none, some [samplePatientDetail]⟩)
    (fun _ _ => some ⟨some [mkT "5"], some 1⟩) none
    ⟨1, some "w", some "TR", "555"⟩ "14").1 _ hsome
  have hnone := (enrich_contract toIntParse toIntParse (90 * 86400) none
    (fun _ _ => some ⟨some [mkT "5"], some 1⟩) none
    ⟨1, some "w", some "TR", "555"⟩ "14").2.1 rfl
  exact ⟨hsome, hflags.1, hflags.2.1, hflags.2.2, hnone⟩

/-- Helper for C4: when every attempt fails retryably, the loop visits
every remaining attempt, sleeps `request_delay * attempt` after each
non-final one, and returns `None`. -/
theorem make_request_loop_all_retryable {α : Type}
    (transport : Nat → ReqOutcome α) (d : ℚ) (n : Nat)
    (hret : ∀ a, retryable_outcome (transport a) = true) :
    ∀ k attempt, 1 ≤ attempt → attempt + k = n →
      make_request_loop transport n d attempt =
        (none, (List.range' attempt k).map (fun i => d * i)) := by
  intro k
  induction k with
  | zero =>
    intro attempt h1 hk
    have hattn : attempt = n := by omega
    have hng : ¬ attempt > n := by omega
    cases ho : transport attempt with
    | success r =>
      exact absurd (hret attempt) (by rw [ho]; simp [retryable_outcome])
    | requestError =>
      exact absurd (hret attempt) (by rw [ho]; simp [retryable_outcome])
    | otherError =>
      exact absurd (hret attempt) (by rw [ho]; simp [retryable_outcome])
    | timeout =>
      rw [make_request_loop, if_neg hng, ho]
      dsimp only
      rw [if_pos hattn]
      simp
    | connectionError =>
      rw [make_request_loop, if_neg hng, ho]
      dsimp only
      rw [if_pos hattn]
      simp
    | httpError status =>
      cases status with
      | none =>
        exact absurd (hret attempt) (by rw [ho]; simp [retryable_outcome])
      | some code =>
        have hcode : 500 ≤ code := by
          have h := hret attempt
          rw [ho] at h
          simpa [retryable_outcome] using h
        rw [make_request_loop, if_neg hng, ho]
        dsimp only
        rw [if_neg (by simp only [HTTP_CLIENT_ERROR_START,
          HTTP_CLIENT_ERROR_END]; omega), if_pos hattn]
        simp
  | succ k ih =>
    intro attempt h1 hk
    have hne : ¬ attempt = n := by omega
    have hng : ¬ attempt > n := by omega
    have hrec := ih (attempt + 1) (by omega) (by omega)
    cases ho : transport attempt with
    | success r =>
      exact absurd (hret attempt) (by rw [ho]; simp [retryable_outcome])
    | requestError =>
      exact absurd (hret attempt) (by rw [ho]; simp [retryable_outcome])
    | otherError =>
      exact absurd (hret attempt) (by rw [ho]; simp [retryable_outcome])
    | timeout =>
      rw [make_request_loop, if_neg hng, ho]
      dsimp only
      rw [if_neg hne, hrec, List.range'_succ]
      simp
    | connectionError =>
      rw [make_request_loop, if_neg hng, ho]
      dsimp only
      rw [if_neg hne, hrec, List.range'_succ]
      simp
    | httpError status =>
      cases status with
      | none =>
        exact absurd (hret attempt) (by rw [ho]; simp [retryable_outcome])
      | some code =>
        have hcode : 500 ≤ code := by
          have h := hret attempt
          rw [ho] at h
          simpa [retryable_outcome] using h
        rw [make_request_loop, if_neg hng, ho]
        dsimp only
        rw [if_neg (by simp only [HTTP_CLIENT_ERROR_START,
          HTTP_CLIENT_ERROR_END]; omega), if_neg hne, hrec, List.range'_succ]
        simp

/-- Helper for C4: the chunks of `process_batch` concatenate back to the
input list. -/
theorem chunkList_join {α : Type} (bs : Nat) (hbs : 0 < bs) (l : List α) :
    (chunkList bs l).flatten = l := by
  suffices h : ∀ fuel (l : List α), l.length ≤ fuel → (chunkList bs l).flatten = l from
    h l.length l le_rfl
  intro fuel
  induction fuel with
  | zero =>
    intro l hl
    have : l = [] := List.length_eq_zero.mp (Nat.le_zero.mp hl)
    subst this
    simp [chunkList]
  | succ n ih =>
    intro l hl
    cases l with
    | nil => simp [chunkList]
    | cons x xs =>
      rw [chunkList, if_neg (by omega : ¬ bs = 0)]
      have hdrop : ((x :: xs).drop bs).length ≤ n := by
        simp only [List.length_drop, List.length_cons]
        simp only [List.length_cons] at hl
        omega
      simp only [List.flatten_cons, ih ((x :: xs).drop bs) hdrop]
      exact List.take_append_drop bs (x :: xs)

/-- Helper for C4: the inner per-patient fold of `process_batch` appends
the successful enrichments in order and counts every `None` (or raised)
enrichment as skipped. -/
theorem process_fold_spec (enrichF : PatientData → Option EnrichedPatientData)
    (raises : PatientData → Bool) :
    ∀ (l : List PatientData) (acc : List EnrichedPatientData × Nat),
      l.foldl
        (fun acc p =>
          if raises p then (acc.1, acc.2 + 1)
          else
            match enrichF p with
            | some e => (acc.1 ++ [e], acc.2)
            | none => (acc.1, acc.2 + 1)) acc =
      (acc.1 ++ (l.filter (fun p => !raises p)).filterMap enrichF,
       acc.2 + (l.filter (fun p => raises p || (enrichF p).isNone)).length) := by
  intro l
  induction l with
  | nil => intro acc; simp
  | cons p ps ih =>
    intro acc
    rw [List.foldl_cons]
    by_cases hr : raises p = true
    · rw [if_pos hr, ih]
      have h1 : (p :: ps).filter (fun q => !raises q) =
          ps.filter (fun q => !raises q) := by
        simp [List.filter_cons, hr]
      have h2 : (p :: ps).filter (fun q => raises q || (enrichF q).isNone) =
          p :: ps.filter (fun q => raises q || (enrichF q).isNone) := by
        simp [List.filter_cons, hr]
      rw [h1, h2, List.length_cons]
      refine Prod.ext rfl ?_
      dsimp only
      omega
    · have hr' : raises p = false := by simpa using hr
      rw [if_neg (by simp [hr'])]
      cases he : enrichF p with
      | some e =>
        rw [ih]
        have h1 : (p :: ps).filter (fun q => !raises q) =
            p :: ps.filter (fun q => !raises q) := by
          simp [List.filter_cons, hr']
        have h2 : (p :: ps).filter (fun q => raises q || (enrichF q).isNone) =
            ps.filter (fun q => raises q || (enrichF q).isNone) := by
          simp [List.filter_cons, hr', he]
        rw [h1, h2, List.filterMap_cons]
        simp [he]
      | none =>
        rw [ih]
        have h1 : (p :: ps).filter (fun q => !raises q) =
            p :: ps.filter (fun q => !raises q) := by
          simp [List.filter_cons, hr']
        have h2 : (p :: ps).filter (fun q => raises q || (enrichF q).isNone) =
            p :: ps.filter (fun q => raises q || (enrichF q).isNone) := by
          simp [List.filter_cons, hr', he]
        rw [h1, h2, List.filterMap_cons, List.length_cons]
        simp only [he]
        refine Prod.ext rfl ?_
        dsimp only
        omega

/-- Helper for C4: the chunked double fold of `process_batch` equals the
flat fold over the concatenation of the chunks. -/
theorem process_batch_fold_join (enrichF : PatientData → Option EnrichedPatientData)
    (raises : PatientData → Bool) :
    ∀ (L : List (List PatientData)) (acc : List EnrichedPatientData × Nat),
      L.foldl
        (fun acc batch =>
          batch.foldl
            (fun acc p =>
              if raises p then (acc.1, acc.2 + 1)
              else
                match enrichF p with
                | some e => (acc.1 ++ [e], acc.2)
                | none => (acc.1, acc.2 + 1)) acc) acc =
      (acc.1 ++ (L.flatten.filter (fun p => !raises p)).filterMap enrichF,
       acc.2 + (L.flatten.filter (fun p => raises p || (enrichF p).isNone)).length) := by
  intro L
  induction L with
  | nil => intro acc; simp
  | cons batch rest ih =>
    intro acc
    rw [List.foldl_cons, process_fold_spec enrichF raises batch acc, ih]
    simp [List.filter_append, List.filterMap_append]
    omega

/-- C4: timeouts, connection failures and 5xx responses are retried up to
the maximum attempt count, sleeping `request_delay * attempt` between
attempts, and return `None` after the last attempt; a 4xx response on the
first attempt returns `None` immediately with no retry sleep; and the
caller `process_batch` treats a `None` enrichment as skipped — it is
dropped from the output and counted in the skip counter (there is no
failed counter). -/
theorem retry_classification (α : Type) :
    (∀ (transport : Nat → ReqOutcome α) (d : ℚ) (n : Nat), 1 ≤ n →
      (∀ a, retryable_outcome (transport a) = true) →
      make_request transport n d =
        (none, (List.range' 1 (n - 1)).map (fun i => d * i))) ∧
    (∀ (transport : Nat → ReqOutcome α) (d : ℚ) (n : Nat) (code : Nat),
      1 ≤ n → transport 1 = .httpError (some code) → 400 ≤ code → code < 500 →
      make_request transport n d = (none, [])) ∧
    (∀ (enrichF : PatientData → Option EnrichedPatientData)
       (raises : PatientData → Bool) (patients : List PatientData) (bs : Nat),
      0 < bs →
      process_batch enrichF raises patients bs =
        ((patients.filter (fun p => !raises p)).filterMap enrichF,
         (patients.filter (fun p => raises p || (enrichF p).isNone)).length)) := by
  refine ⟨?_, ?_, ?_⟩
  · intro transport d n h1 hret
    unfold make_request
    exact make_request_loop_all_retryable transport d n hret (n - 1) 1 le_rfl
      (by omega)
  · intro transport d n code h1 ht h4 h5
    unfold make_request
    rw [make_request_loop, if_neg (by omega : ¬ 1 > n), ht]
    dsimp only
    rw [if_pos (by unfold HTTP_CLIENT_ERROR_START HTTP_CLIENT_ERROR_END; omega)]
  · intro enrichF raises patients bs hbs
    unfold process_batch
    rw [process_batch_fold_join enrichF raises (chunkList bs patients) ([], 0),
      chunkList_join bs hbs patients]
    simp

/-- Witness for C4: an always-timing-out transport with 3 allowed attempts
and base delay 1 sleeps 1·1 and 1·2 and returns `None`; a 404 on the first
attempt returns `None` with no sleeps; a two-candidate batch whose second
enrichment returns `None` yields one enriched contact and one skip. -/
theorem retry_classification_witness :
    make_request (fun _ => (ReqOutcome.timeout : ReqOutcome Nat)) 3 1 =
      (none, [1 * 1, 1 * 2]) ∧
    make_request (fun _ => (ReqOutcome.httpError (some 404) : ReqOutcome Nat)) 3 1 =
      (none, []) ∧
    process_batch
        (fun p => if p.userPatientId = 1 then some samplePatient else none)
        (fun _ => false) [⟨1, none, none, "a"⟩, ⟨2, none, none, "b"⟩] 10 =
      ([samplePatient], 1) := by
  refine ⟨?_, ?_, ?_⟩
  · have h := (retry_classification Nat).1 (fun _ => .timeout) 1 3 (by omega)
      (fun a => rfl)
    rw [h]
    norm_num [List.range']
  · exact (retry_classification Nat).2.1 (fun _ => .httpError (some 404)) 1 3 404
      (by omega) rfl (by omega) (by omega)
  · have h := (retry_classification Nat).2.2
      (fun p => if p.userPatientId = 1 then some samplePatient else none)
      (fun _ => false) [⟨1, none, none, "a"⟩, ⟨2, none, none, "b"⟩] 10
      (by omega)
    rw [h]
    decide

/-- Decimal digit characters are digits. -/
theorem digitChar_isDigit (k : Nat) : (digitChar k).isDigit = true := by
  rcases k with _ | _ | _ | _ | _ | _ | _ | _ | _ | k <;> rfl

/-- Decimal digit characters decode back to their value. -/
theorem digitChar_toNat_sub (k : Nat) (h : k < 10) :
    (digitChar k).toNat - 48 = k := by
  rcases k with _ | _ | _ | _ | _ | _ | _ | _ | _ | _ | k
  · rfl
  · rfl
  · rfl
  · rfl
  · rfl
  · rfl
  · rfl
  · rfl
  · rfl
  · rfl
  · omega

/-- The digit accumulator prepends its output to the accumulator. -/
theorem natDigitsGo_append :
    ∀ fuel n acc, n ≤ fuel →
      natDigitsGo fuel n acc = natDigitsGo fuel n [] ++ acc := by
  intro fuel
  induction fuel with
  | zero =>
    intro n acc h
    have : n = 0 := by omega
    subst this
    simp [natDigitsGo]
  | succ f ih =>
    intro n acc h
    by_cases h0 : n = 0
    · subst h0
      simp [natDigitsGo]
    · conv_lhs => rw [natDigitsGo, if_neg h0]
      conv_rhs => rw [natDigitsGo, if_neg h0]
      have hdiv : n / 10 ≤ f := by
        have := Nat.div_lt_self (show 0 < n by omega) (show 1 < 10 by omega)
        omega
      rw [ih (n / 10) (digitChar (n % 10) :: acc) hdiv,
        ih (n / 10) [digitChar (n % 10)] hdiv]
      simp

/-- Folding the decoder over an appended list. -/
theorem parseDigitsFrom_append (a : Nat) (l1 l2 : List Char) :
    parseDigitsFrom a (l1 ++ l2) = parseDigitsFrom (parseDigitsFrom a l1) l2 := by
  simp [parseDigitsFrom, List.foldl_append]

/-- Decoding the digits of `n` yields `n`. -/
theorem natDigitsGo_parse :
    ∀ fuel n, n ≤ fuel → parseDigitsFrom 0 (natDigitsGo fuel n []) = n := by
  intro fuel
  induction fuel with
  | zero =>
    intro n h
    have : n = 0 := by omega
    subst this
    simp [natDigitsGo, parseDigitsFrom]
  | succ f ih =>
    intro n h
    by_cases h0 : n = 0
    · subst h0
      simp [natDigitsGo, parseDigitsFrom]
    · rw [natDigitsGo, if_neg h0]
      have hdiv : n / 10 ≤ f := by
        have := Nat.div_lt_self (show 0 < n by omega) (show 1 < 10 by omega)
        omega
      rw [natDigitsGo_append f (n / 10) [digitChar (n % 10)] hdiv,
        parseDigitsFrom_append, ih (n / 10) hdiv]
      have : parseDigitsFrom (n / 10) [digitChar (n % 10)] =
          (n / 10) * 10 + ((digitChar (n % 10)).toNat - 48) := by
        simp [parseDigitsFrom]
      rw [this, digitChar_toNat_sub (n % 10) (Nat.mod_lt _ (by omega))]
      omega

/-- Decoding the decimal rendering of `n` yields `n`. -/
theorem parse_natDecimalRepr (n : Nat) :
    parseDigitsFrom 0 (natDecimalRepr n).data = n := by
  unfold natDecimalRepr
  by_cases h0 : n = 0
  · subst h0
    decide
  · rw [if_neg h0]
    exact natDigitsGo_parse n n le_rfl

/-- Decimal renderings are injective. -/
theorem natDecimalRepr_inj {m n : Nat} (h : natDecimalRepr m = natDecimalRepr n) :
    m = n := by
  have := congrArg (fun s => parseDigitsFrom 0 s.data) h
  simpa [parse_natDecimalRepr] using this

/-- All characters produced by the digit accumulator are digits. -/
theorem natDigitsGo_digits :
    ∀ fuel n acc, (∀ c ∈ acc, c.isDigit = true) →
      ∀ c ∈ natDigitsGo fuel n acc, c.isDigit = true := by
  intro fuel
  induction fuel with
  | zero =>
    intro n acc hacc c hc
    exact hacc c hc
  | succ f ih =>
    intro n acc hacc c hc
    by_cases h0 : n = 0
    · subst h0
      rw [natDigitsGo, if_pos rfl] at hc
      exact hacc c hc
    · rw [natDigitsGo, if_neg h0] at hc
      refine ih (n / 10) (digitChar (n % 10) :: acc) ?_ c hc
      intro c' hc'
      rcases List.mem_cons.mp hc' with h | h
      · subst h
        exact digitChar_isDigit (n % 10)
      · exact hacc c' h

/-- All characters of a decimal rendering are digits. -/
theorem natDecimalRepr_digits (n : Nat) :
    ∀ c ∈ (natDecimalRepr n).data, c.isDigit = true := by
  unfold natDecimalRepr
  by_cases h0 : n = 0
  · subst h0
    intro c hc
    rw [if_pos rfl] at hc
    have h0d : ("0" : String).data = ['0'] := rfl
    rw [h0d] at hc
    have := List.mem_singleton.mp hc
    subst this
    decide
  · rw [if_neg h0]
    exact natDigitsGo_digits n n [] (by intro c hc; cases hc)

/-- Splitting at an underscore separator: two digit prefixes followed by
`'_'` agree iff the pieces agree. -/
theorem digits_sep_inj :
    ∀ (a : List Char), (∀ c ∈ a, c.isDigit = true) →
    ∀ (b : List Char), (∀ c ∈ b, c.isDigit = true) →
    ∀ x y : List Char, a ++ '_' :: x = b ++ '_' :: y → a = b ∧ x = y := by
  intro a
  induction a with
  | nil =>
    intro _ b hb x y h
    cases b with
    | nil => simpa using h
    | cons c bs =>
      simp only [List.nil_append, List.cons_append, List.cons.injEq] at h
      exfalso
      have hd := hb c (by simp)
      rw [← h.1] at hd
      exact absurd hd (by decide)
  | cons c as ih =>
    intro ha b hb x y h
    cases b with
    | nil =>
      simp only [List.cons_append, List.nil_append, List.cons.injEq] at h
      exfalso
      have hd := ha c (by simp)
      rw [h.1] at hd
      exact absurd hd (by decide)
    | cons c' bs =>
      simp only [List.cons_append, List.cons.injEq] at h
      obtain ⟨hc, hrest⟩ := h
      obtain ⟨hab, hxy⟩ := ih (fun d hd => ha d (by simp [hd])) bs
        (fun d hd => hb d (by simp [hd])) x y hrest
      exact ⟨by rw [hc, hab], hxy⟩

/-- Synthesized visit ids determine their index: ids synthesized at
different positions are distinct, whatever the hash values. -/
theorem synth_transaction_id_inj (h1 h2 : String → Int) (i j : Nat)
    (t1 t2 : Transaction)
    (heq : synth_transaction_id h1 i t1 = synth_transaction_id h2 j t2) :
    i = j := by
  unfold synth_transaction_id at heq
  have hd := congrArg String.data heq
  simp only [String.data_append] at hd
  simp only [List.append_assoc, List.cons_append, List.nil_append,
    List.cons.injEq, true_and] at hd
  have := digits_sep_inj (natDecimalRepr i).data (natDecimalRepr_digits i)
    (natDecimalRepr j).data (natDecimalRepr_digits j) _ _ hd
  exact natDecimalRepr_inj (String.ext this.1)

/-- Inserting a fresh key appends. -/
theorem dictInsert_of_not_mem {β : Type} (m : List (String × β)) (k : String)
    (v : β) (h : ∀ p ∈ m, p.1 ≠ k) : dictInsert m k v = m ++ [(k, v)] := by
  unfold dictInsert
  rw [if_neg]
  simp only [List.any_eq_true, not_exists, not_and]
  intro p hp
  simpa using h p hp

/-- The serialization loop appends one entry per transaction when every
accumulated key stems from an earlier index. -/
theorem serialize_transactions_aux_spec (pyHash : String → Int) (nowIso : String) :
    ∀ (ts : List Transaction) (i : Nat) (m : List (String × TransDetail)),
      (∀ k ∈ m.map Prod.fst, ∃ j t', j < i ∧ k = synth_transaction_id pyHash j t') →
      serialize_transactions_aux pyHash nowIso i ts m =
        m ++ writer_dict_entries pyHash nowIso i ts := by
  intro ts
  induction ts with
  | nil =>
    intro i m h
    simp [serialize_transactions_aux, writer_dict_entries]
  | cons t rest ih =>
    intro i m h
    rw [serialize_transactions_aux, writer_dict_entries]
    rw [dictInsert_of_not_mem m (synth_transaction_id pyHash i t)
      (writer_trans_detail pyHash nowIso i t) ?fresh]
    case fresh =>
      intro p hp hpk
      obtain ⟨j, t', hj, hk⟩ := h p.1 (List.mem_map_of_mem Prod.fst hp)
      rw [hpk] at hk
      have := synth_transaction_id_inj pyHash pyHash i j t t' hk
      omega
    rw [ih (i + 1) (m ++ [(synth_transaction_id pyHash i t,
      writer_trans_detail pyHash nowIso i t)]) ?inv]
    case inv =>
      intro k hk
      simp only [List.map_append, List.mem_append] at hk
      rcases hk with hk | hk
      · obtain ⟨j, t', hj, hkk⟩ := h k hk
        exact ⟨j, t', by omega, hkk⟩
      · simp only [List.map_cons, List.map_nil, List.mem_singleton] at hk
        exact ⟨i, t, by omega, hk⟩
    simp

/-- The serialized visit dict is exactly one entry per transaction, in
order. -/
theorem serialize_transactions_spec (pyHash : String → Int) (nowIso : String)
    (ts : List Transaction) :
    serialize_transactions pyHash nowIso ts =
      writer_dict_entries pyHash nowIso 0 ts := by
  unfold serialize_transactions
  rw [serialize_transactions_aux_spec pyHash nowIso ts 0 [] (by intro k hk; cases hk)]
  rfl

/-- One serialized entry per transaction. -/
theorem writer_dict_entries_length (pyHash : String → Int) (nowIso : String) :
    ∀ ts i, (writer_dict_entries pyHash nowIso i ts).length = ts.length := by
  intro ts
  induction ts with
  | nil => intro i; rfl
  | cons t rest ih =>
    intro i
    rw [writer_dict_entries]
    simp [ih (i + 1)]

/-- The size of the serialized visit dict equals the number of serialized
transactions. -/
theorem serialize_transactions_length (pyHash : String → Int) (nowIso : String)
    (ts : List Transaction) :
    (serialize_transactions pyHash nowIso ts).length = ts.length := by
  rw [serialize_transactions_spec]
  exact writer_dict_entries_length pyHash nowIso ts 0

/-- Components of a passing quality filter. -/
theorem quality_components {parseDate : String → Option Int} {now : Int}
    {patient : EnrichedPatientData}
    (hq : passes_quality_filters parseDate now patient = true) :
    patient.patientFound = true ∧ patient.transactionsFound = true ∧
    patient.transactions ≠ [] ∧ (∃ pd, patient.patientDetails = some pd) ∧
    writer_recent_transactions parseDate (now - 90 * 86400)
      patient.transactions ≠ [] := by
  unfold passes_quality_filters at hq
  simp only [Bool.and_eq_true, Bool.not_eq_true', List.isEmpty_eq_false,
    Option.isSome_iff_exists] at hq
  exact ⟨hq.1.1.1.1, hq.1.1.1.2, hq.1.1.2, hq.1.2, hq.2⟩

/-- A contact failing the quality filters is skipped with no store
change. -/
theorem save_skipped_of_not_quality (parseDate : String → Option Int)
    (pyHash : String → Int) (now : Int) (nowIso : String) (store : List DbRow)
    (ts : Int) (app_id : String) (patient : EnrichedPatientData)
    (hq : passes_quality_filters parseDate now patient = false) :
    save_patient_data_to_db parseDate pyHash now nowIso store ts app_id patient
      = ⟨store, true, "skipped"⟩ := by
  unfold save_patient_data_to_db
  by_cases h1 : patient.patientFound = false
  · rw [if_pos h1]
  · rw [if_neg h1]
    by_cases h2 : patient.transactionsFound = false ∨ patient.transactions = []
    · rw [if_pos h2]
    · rw [if_neg h2]
      cases hpd : patient.patientDetails with
      | none => rfl
      | some pd =>
        cases hrec : writer_recent_transactions parseDate (now - 90 * 86400)
            patient.transactions with
        | nil => rfl
        | cons t0 rest =>
          exfalso
          have hb1 : patient.patientFound = true := by
            revert h1; cases patient.patientFound <;> simp
          have hb2 : patient.transactionsFound = true := by
            rcases not_or.mp h2 with ⟨ha, _⟩
            revert ha; cases patient.transactionsFound <;> simp
          have hb3 : patient.transactions ≠ [] :=
            fun hcon => h2 (Or.inr hcon)
          rw [passes_quality_filters, hb1, hb2, hpd, hrec] at hq
          simp [hb3] at hq

/-- Write path of the writer when the key is absent: one new row is
appended and the call reports `'inserted'`. -/
theorem save_insert_spec (parseDate : String → Option Int)
    (pyHash : String → Int) (now : Int) (nowIso : String) (store : List DbRow)
    (ts : Int) (app_id : String) (patient : EnrichedPatientData)
    (hq : passes_quality_filters parseDate now patient = true)
    (hfind : store.find? (rowKeyMatches patient.userPatientId app_id) = none) :
    ∃ pd t0 rest, patient.patientDetails = some pd ∧
      writer_recent_transactions parseDate (now - 90 * 86400)
        patient.transactions = t0 :: rest ∧
      save_patient_data_to_db parseDate pyHash now nowIso store ts app_id patient
        = ⟨store ++ [writer_new_row (freshRowId store) ts app_id patient pd
            (t0 :: rest).length (writer_latest_vals parseDate t0 rest)
            (TransJson.dict (serialize_transactions pyHash nowIso (t0 :: rest)))],
           true, "inserted"⟩ := by
  obtain ⟨hb1, hb2, hb3, ⟨pd, hpd⟩, hrecne⟩ := quality_components hq
  obtain ⟨t0, rest, hrec⟩ : ∃ t0 rest,
      writer_recent_transactions parseDate (now - 90 * 86400)
        patient.transactions = t0 :: rest := by
    cases hrec' : writer_recent_transactions parseDate (now - 90 * 86400)
        patient.transactions with
    | nil => exact absurd hrec' hrecne
    | cons a b => exact ⟨a, b, rfl⟩
  refine ⟨pd, t0, rest, hpd, hrec, ?_⟩
  unfold save_patient_data_to_db
  rw [if_neg (by simp [hb1]), if_neg (by simp [hb2, hb3]), hpd]
  dsimp only
  rw [hrec]
  dsimp only
  rw [hfind]

/-- Write path of the writer when the key is present: every key-matching
row is overwritten in place, and the call reports `'updated'` exactly when
the key matches a single row (else `'failed'`). -/
theorem save_update_spec (parseDate : String → Option Int)
    (pyHash : String → Int) (now : Int) (nowIso : String) (store : List DbRow)
    (ts : Int) (app_id : String) (patient : EnrichedPatientData) (r0 : DbRow)
    (hq : passes_quality_filters parseDate now patient = true)
    (hfind : store.find? (rowKeyMatches patient.userPatientId app_id) = some r0) :
    ∃ pd t0 rest, patient.patientDetails = some pd ∧
      writer_recent_transactions parseDate (now - 90 * 86400)
        patient.transactions = t0 :: rest ∧
      (save_patient_data_to_db parseDate pyHash now nowIso store ts app_id
          patient).store =
        store.map (fun r =>
          if rowKeyMatches patient.userPatientId app_id r then
            writer_updated_row ts (t0 :: rest).length patient
              (writer_latest_vals parseDate t0 rest)
              (TransJson.dict (serialize_transactions pyHash nowIso (t0 :: rest))) r
          else r) ∧
      (countKey store patient.userPatientId app_id = 1 →
        (save_patient_data_to_db parseDate pyHash now nowIso store ts app_id
          patient).ok = true ∧
        (save_patient_data_to_db parseDate pyHash now nowIso store ts app_id
          patient).action = "updated") ∧
      (countKey store patient.userPatientId app_id ≠ 1 →
        (save_patient_data_to_db parseDate pyHash now nowIso store ts app_id
          patient).ok = false ∧
        (save_patient_data_to_db parseDate pyHash now nowIso store ts app_id
          patient).action = "failed") := by
  obtain ⟨hb1, hb2, hb3, ⟨pd, hpd⟩, hrecne⟩ := quality_components hq
  obtain ⟨t0, rest, hrec⟩ : ∃ t0 rest,
      writer_recent_transactions parseDate (now - 90 * 86400)
        patient.transactions = t0 :: rest := by
    cases hrec' : writer_recent_transactions parseDate (now - 90 * 86400)
        patient.transactions with
    | nil => exact absurd hrec' hrecne
    | cons a b => exact ⟨a, b, rfl⟩
  refine ⟨pd, t0, rest, hpd, hrec, ?_⟩
  unfold save_patient_data_to_db
  rw [if_neg (by simp [hb1]), if_neg (by simp [hb2, hb3]), hpd]
  dsimp only
  rw [hrec]
  dsimp only
  rw [hfind]
  dsimp only
  unfold countKey
  by_cases hcount :
      (store.filter (rowKeyMatches patient.userPatientId app_id)).length = 1
  · rw [if_pos hcount]
    exact ⟨rfl, fun _ => ⟨rfl, rfl⟩, fun hne => absurd hcount hne⟩
  · rw [if_neg hcount]
    exact ⟨rfl, fun h => absurd h hcount, fun _ => ⟨rfl, rfl⟩⟩

/-- Key counting distributes over append. -/
theorem countKey_append (l1 l2 : List DbRow) (pid : Int) (aid : String) :
    countKey (l1 ++ l2) pid aid = countKey l1 pid aid + countKey l2 pid aid := by
  unfold countKey
  rw [List.filter_append, List.length_append]

/-- A key-preserving map leaves key counts unchanged. -/
theorem countKey_map (f : DbRow → DbRow)
    (hf : ∀ r, (f r).userPatientId = r.userPatientId ∧ (f r).appId = r.appId)
    (store : List DbRow) (pid : Int) (aid : String) :
    countKey (store.map f) pid aid = countKey store pid aid := by
  induction store with
  | nil => rfl
  | cons r rs ih =>
    unfold countKey at ih ⊢
    rw [List.map_cons, List.filter_cons, List.filter_cons]
    have hkey : rowKeyMatches pid aid (f r) = rowKeyMatches pid aid r := by
      unfold rowKeyMatches
      rw [(hf r).1, (hf r).2]
    rw [hkey]
    cases rowKeyMatches pid aid r with
    | true => simpa using ih
    | false => simpa using ih

/-- Absent key means zero key count. -/
theorem find?_none_iff_countKey_zero (store : List DbRow) (pid : Int)
    (aid : String) :
    store.find? (rowKeyMatches pid aid) = none ↔ countKey store pid aid = 0 := by
  rw [List.find?_eq_none]
  unfold countKey
  rw [List.length_eq_zero, List.filter_eq_nil_iff]

/-- The inserted row carries the written key. -/
theorem writer_new_row_key (id : Nat) (ts : Int) (app_id : String)
    (patient : EnrichedPatientData) (pd : PatientDetail) (count : Nat)
    (lv : Option Int × Option String × Option String × Option String)
    (tj : TransJson) :
    rowKeyMatches patient.userPatientId app_id
      (writer_new_row id ts app_id patient pd count lv tj) = true := by
  unfold rowKeyMatches writer_new_row
  simp

/-- The in-place update keeps the row's key. -/
theorem writer_updated_row_key (ts : Int) (count : Nat)
    (patient : EnrichedPatientData)
    (lv : Option Int × Option String × Option String × Option String)
    (tj : TransJson) (r : DbRow) :
    (writer_updated_row ts count patient lv tj r).userPatientId =
        r.userPatientId ∧
      (writer_updated_row ts count patient lv tj r).appId = r.appId :=
  ⟨rfl, rfl⟩

/-- Helper for C1: once the store holds exactly one row for the contact's
key, every further run reports `'updated'` and keeps exactly one row. -/
theorem run_saves_updated (parseDate : String → Option Int)
    (pyHash : String → Int) (now : Int) (nowIso : String) (app_id : String)
    (patient : EnrichedPatientData)
    (hq : passes_quality_filters parseDate now patient = true) :
    ∀ (stamps : List Int) (store : List DbRow),
      countKey store patient.userPatientId app_id = 1 →
      (run_saves parseDate pyHash now nowIso app_id patient stamps store).2 =
        List.replicate stamps.length "updated" ∧
      countKey (run_saves parseDate pyHash now nowIso app_id patient stamps
        store).1 patient.userPatientId app_id = 1 := by
  intro stamps
  induction stamps with
  | nil => intro store h1; exact ⟨rfl, h1⟩
  | cons ts rest ih =>
    intro store h1
    have hfind : ∃ r0,
        store.find? (rowKeyMatches patient.userPatientId app_id) = some r0 := by
      rcases hf : store.find? (rowKeyMatches patient.userPatientId app_id) with
        _ | r0
      · rw [(find?_none_iff_countKey_zero store patient.userPatientId
          app_id).mp hf] at h1
        cases h1
      · exact ⟨r0, rfl⟩
    obtain ⟨r0, hfind⟩ := hfind
    obtain ⟨pd, t0, trest, hpd, hrec, hstore, hone, -⟩ :=
      save_update_spec parseDate pyHash now nowIso store ts app_id patient r0
        hq hfind
    obtain ⟨-, haction⟩ := hone h1
    have hckeep : countKey (save_patient_data_to_db parseDate pyHash now nowIso
        store ts app_id patient).store patient.userPatientId app_id = 1 := by
      rw [hstore]
      rw [countKey_map _ ?keys store patient.userPatientId app_id]
      · exact h1
      case keys =>
        intro r
        by_cases hk : rowKeyMatches patient.userPatientId app_id r = true
        · rw [if_pos hk]
          exact writer_updated_row_key ts (t0 :: trest).length patient
            (writer_latest_vals parseDate t0 trest)
            (TransJson.dict (serialize_transactions pyHash nowIso (t0 :: trest))) r
        · rw [if_neg hk]
          exact ⟨rfl, rfl⟩
    obtain ⟨ihacts, ihcount⟩ := ih
      (save_patient_data_to_db parseDate pyHash now nowIso store ts app_id
        patient).store hckeep
    rw [run_saves]
    refine ⟨?_, ihcount⟩
    rw [List.length_cons, List.replicate_succ]
    dsimp only
    rw [haction, ihacts]

/-- C1: a quality-passing contact with no row for its key inserts exactly
one row and reports `'inserted'`; with exactly one row present it takes
the update path, reports `'updated'`, and leaves one row; and any
non-empty sequence of repeated runs from an absent key reports
`'inserted'` once, then `'updated'`, ending with exactly one row for the
key. -/
theorem upsert_idempotent (parseDate : String → Option Int)
    (pyHash : String → Int) (now : Int) (nowIso : String) (app_id : String)
    (patient : EnrichedPatientData)
    (hq : passes_quality_filters parseDate now patient = true) :
    (∀ (store : List DbRow) (ts : Int),
      countKey store patient.userPatientId app_id = 0 →
      (save_patient_data_to_db parseDate pyHash now nowIso store ts app_id
        patient).action = "inserted" ∧
      (save_patient_data_to_db parseDate pyHash now nowIso store ts app_id
        patient).ok = true ∧
      (save_patient_data_to_db parseDate pyHash now nowIso store ts app_id
        patient).store.length = store.length + 1 ∧
      countKey (save_patient_data_to_db parseDate pyHash now nowIso store ts
        app_id patient).store patient.userPatientId app_id = 1) ∧
    (∀ (store : List DbRow) (ts : Int),
      countKey store patient.userPatientId app_id = 1 →
      (save_patient_data_to_db parseDate pyHash now nowIso store ts app_id
        patient).action = "updated" ∧
      (save_patient_data_to_db parseDate pyHash now nowIso store ts app_id
        patient).ok = true ∧
      (save_patient_data_to_db parseDate pyHash now nowIso store ts app_id
        patient).store.length = store.length ∧
      countKey (save_patient_data_to_db parseDate pyHash now nowIso store ts
        app_id patient).store patient.userPatientId app_id = 1) ∧
    (∀ (store : List DbRow) (stamps : List Int),
      countKey store patient.userPatientId app_id = 0 → stamps ≠ [] →
      (run_saves parseDate pyHash now nowIso app_id patient stamps store).2 =
        "inserted" :: List.replicate (stamps.length - 1) "updated" ∧
      countKey (run_saves parseDate pyHash now nowIso app_id patient stamps
        store).1 patient.userPatientId app_id = 1) := by
  have hins : ∀ (store : List DbRow) (ts : Int),
      countKey store patient.userPatientId app_id = 0 →
      (save_patient_data_to_db parseDate pyHash now nowIso store ts app_id
        patient).action = "inserted" ∧
      (save_patient_data_to_db parseDate pyHash now nowIso store ts app_id
        patient).ok = true ∧
      (save_patient_data_to_db parseDate pyHash now nowIso store ts app_id
        patient).store.length = store.length + 1 ∧
      countKey (save_patient_data_to_db parseDate pyHash now nowIso store ts
        app_id patient).store patient.userPatientId app_id = 1 := by
    intro store ts h0
    have hfind : store.find? (rowKeyMatches patient.userPatientId app_id)
        = none :=
      (find?_none_iff_countKey_zero store patient.userPatientId app_id).mpr h0
    obtain ⟨pd, t0, rest, hpd, hrec, hsave⟩ :=
      save_insert_spec parseDate pyHash now nowIso store ts app_id patient hq
        hfind
    rw [hsave]
    refine ⟨rfl, rfl, by simp, ?_⟩
    rw [countKey_append, h0]
    unfold countKey
    rw [List.filter_cons]
    rw [writer_new_row_key]
    rfl
  refine ⟨hins, ?_, ?_⟩
  · intro store ts h1
    have hfind : ∃ r0,
        store.find? (rowKeyMatches patient.userPatientId app_id) = some r0 := by
      rcases hf : store.find? (rowKeyMatches patient.userPatientId app_id) with
        _ | r0
      · rw [(find?_none_iff_countKey_zero store patient.userPatientId
          app_id).mp hf] at h1
        cases h1
      · exact ⟨r0, rfl⟩
    obtain ⟨r0, hfind⟩ := hfind
    obtain ⟨pd, t0, trest, hpd, hrec, hstore, hone, -⟩ :=
      save_update_spec parseDate pyHash now nowIso store ts app_id patient r0
        hq hfind
    obtain ⟨hok, haction⟩ := hone h1
    have hkeys : ∀ r : DbRow,
        ((if rowKeyMatches patient.userPatientId app_id r then
            writer_updated_row ts (t0 :: trest).length patient
              (writer_latest_vals parseDate t0 trest)
              (TransJson.dict (serialize_transactions pyHash nowIso
                (t0 :: trest))) r
          else r).userPatientId = r.userPatientId ∧
         (if rowKeyMatches patient.userPatientId app_id r then
            writer_updated_row ts (t0 :: trest).length patient
              (writer_latest_vals parseDate t0 trest)
              (TransJson.dict (serialize_transactions pyHash nowIso
                (t0 :: trest))) r
          else r).appId = r.appId) := by
      intro r
      by_cases hk : rowKeyMatches patient.userPatientId app_id r = true
      · rw [if_pos hk]
        exact writer_updated_row_key _ _ _ _ _ r
      · rw [if_neg hk]
        exact ⟨rfl, rfl⟩
    refine ⟨haction, hok, ?_, ?_⟩
    · rw [hstore, List.length_map]
    · rw [hstore, countKey_map _ hkeys store patient.userPatientId app_id]
      exact h1
  · intro store stamps h0 hne
    cases stamps with
    | nil => exact absurd rfl hne
    | cons ts rest =>
      obtain ⟨hact, -, -, hcount⟩ := hins store ts h0
      obtain ⟨ihacts, ihcount⟩ := run_saves_updated parseDate pyHash now nowIso
        app_id patient hq rest
        (save_patient_data_to_db parseDate pyHash now nowIso store ts app_id
          patient).store hcount
      rw [run_saves]
      constructor
      · dsimp only
        rw [hact, ihacts]
        simp
      · exact ihcount

/-- Witness for C1: two repeated runs of the sample contact over an empty
store report `'inserted'` then `'updated'` and leave exactly one row for
the key `(14, 1)`. -/
theorem upsert_idempotent_witness :
    passes_quality_filters toIntParse (90 * 86400) samplePatient = true ∧
    countKey [] samplePatient.userPatientId "14" = 0 ∧
    (run_saves toIntParse (fun _ => 0) (90 * 86400) "x" "14" samplePatient
      [0, 1] []).2 = ["inserted", "updated"] ∧
    countKey (run_saves toIntParse (fun _ => 0) (90 * 86400) "x" "14"
      samplePatient [0, 1] []).1 samplePatient.userPatientId "14" = 1 := by
  have h := (upsert_idempotent toIntParse (fun _ => 0) (90 * 86400) "x" "14"
    samplePatient (by decide)).2.2 [] [0, 1] (by decide) (by decide)
  exact ⟨by decide, by decide, by rw [h.1]; rfl, h.2⟩

/-- C8: after every write of the reconciliation writer, the written row's
visit-count field equals the number of entries of its serialized visit
map; every row updated by the retention cleaner satisfies the same
equality; and the writer never removes a row (key counts never
decrease). -/
theorem persisted_row_consistency (parseDate : String → Option Int)
    (pyHash : String → Int) (now : Int) (nowIso : String) :
    (∀ (store : List DbRow) (ts : Int) (app_id : String)
       (p : EnrichedPatientData),
      (save_patient_data_to_db parseDate pyHash now nowIso store ts app_id
        p).action = "inserted" →
      ∃ nr es, (save_patient_data_to_db parseDate pyHash now nowIso store ts
          app_id p).store = store ++ [nr] ∧
        nr.transactionDetails = some (.dict es) ∧
        nr.toplamIslemSayisi = es.length) ∧
    (∀ (store : List DbRow) (ts : Int) (app_id : String)
       (p : EnrichedPatientData),
      (save_patient_data_to_db parseDate pyHash now nowIso store ts app_id
        p).action = "updated" →
      ∀ r ∈ (save_patient_data_to_db parseDate pyHash now nowIso store ts
          app_id p).store,
        rowKeyMatches p.userPatientId app_id r = true →
        ∃ es, r.transactionDetails = some (.dict es) ∧
          r.toplamIslemSayisi = es.length) ∧
    (∀ (cutoff : Int) (record : CleanupRecord),
      (clean_transactions_for_record parseDate cutoff record).has_changes
        = true →
      ∃ es, (clean_transactions_for_record parseDate cutoff
          record).new_transaction_json = .dict es ∧
        (clean_transactions_for_record parseDate cutoff
          record).new_transaction_count = es.length) ∧
    (∀ (store : List DbRow) (ts : Int) (app_id : String)
       (p : EnrichedPatientData) (pid : Int) (aid : String),
      countKey store pid aid ≤
        countKey (save_patient_data_to_db parseDate pyHash now nowIso store ts
          app_id p).store pid aid) := by
  have hupdkeys : ∀ (ts : Int) (app_id : String) (p : EnrichedPatientData)
      (t0 : Transaction) (trest : List Transaction) (r : DbRow),
      ((if rowKeyMatches p.userPatientId app_id r then
          writer_updated_row ts (t0 :: trest).length p
            (writer_latest_vals parseDate t0 trest)
            (TransJson.dict (serialize_transactions pyHash nowIso (t0 :: trest))) r
        else r).userPatientId = r.userPatientId ∧
       (if rowKeyMatches p.userPatientId app_id r then
          writer_updated_row ts (t0 :: trest).length p
            (writer_latest_vals parseDate t0 trest)
            (TransJson.dict (serialize_transactions pyHash nowIso (t0 :: trest))) r
        else r).appId = r.appId) := by
    intro ts app_id p t0 trest r
    by_cases hk : rowKeyMatches p.userPatientId app_id r = true
    · rw [if_pos hk]
      exact writer_updated_row_key _ _ _ _ _ r
    · rw [if_neg hk]
      exact ⟨rfl, rfl⟩
  refine ⟨?_, ?_, ?_, ?_⟩
  · intro store ts app_id p hact
    by_cases hq : passes_quality_filters parseDate now p = true
    · cases hfind : store.find? (rowKeyMatches p.userPatientId app_id) with
      | none =>
        obtain ⟨pd, t0, rest, hpd, hrec, hsave⟩ :=
          save_insert_spec parseDate pyHash now nowIso store ts app_id p hq
            hfind
        rw [hsave]
        exact ⟨_, serialize_transactions pyHash nowIso (t0 :: rest), rfl, rfl,
          (serialize_transactions_length pyHash nowIso (t0 :: rest)).symm⟩
      | some r0 =>
        obtain ⟨pd, t0, trest, hpd, hrec, hstore, hone, hmany⟩ :=
          save_update_spec parseDate pyHash now nowIso store ts app_id p r0 hq
            hfind
        exfalso
        by_cases h1 : countKey store p.userPatientId app_id = 1
        · rw [(hone h1).2] at hact
          exact absurd hact (by decide)
        · rw [(hmany h1).2] at hact
          exact absurd hact (by decide)
    · rw [save_skipped_of_not_quality parseDate pyHash now nowIso store ts
        app_id p (by revert hq; cases passes_quality_filters parseDate now p <;>
          simp)] at hact
      simp at hact
  · intro store ts app_id p hact r hr hkey
    by_cases hq : passes_quality_filters parseDate now p = true
    · cases hfind : store.find? (rowKeyMatches p.userPatientId app_id) with
      | none =>
        obtain ⟨pd, t0, rest, hpd, hrec, hsave⟩ :=
          save_insert_spec parseDate pyHash now nowIso store ts app_id p hq
            hfind
        rw [hsave] at hact
        simp at hact
      | some r0 =>
        obtain ⟨pd, t0, trest, hpd, hrec, hstore, hone, hmany⟩ :=
          save_update_spec parseDate pyHash now nowIso store ts app_id p r0 hq
            hfind
        rw [hstore] at hr
        obtain ⟨r', hr', hfr⟩ := List.mem_map.mp hr
        by_cases hk : rowKeyMatches p.userPatientId app_id r' = true
        · rw [if_pos hk] at hfr
          subst hfr
          exact ⟨serialize_transactions pyHash nowIso (t0 :: trest), rfl,
            (serialize_transactions_length pyHash nowIso (t0 :: trest)).symm⟩
        · rw [if_neg hk] at hfr
          subst hfr
          exact absurd hkey hk
    · rw [save_skipped_of_not_quality parseDate pyHash now nowIso store ts
        app_id p (by revert hq; cases passes_quality_filters parseDate now p <;>
          simp)] at hact
      simp at hact
  · intro cutoff record hch
    obtain ⟨rid, rpid, rcount, rdet⟩ := record
    cases rdet with
    | invalid => simp [clean_transactions_for_record] at hch
    | notDict => simp [clean_transactions_for_record] at hch
    | dict entries =>
      unfold clean_transactions_for_record at hch ⊢
      dsimp only at hch ⊢
      by_cases hlen : (clean_entries_loop parseDate cutoff entries
          ([], 0, none, none)).1.length = entries.length
      · rw [if_pos hlen] at hch
        simp at hch
      · rw [if_neg hlen] at hch ⊢
        cases hlatest : (clean_entries_loop parseDate cutoff entries
            ([], 0, none, none)).2.2.2 with
        | some td => exact ⟨_, rfl, rfl⟩
        | none => exact ⟨_, rfl, rfl⟩
  · intro store ts app_id p pid aid
    by_cases hq : passes_quality_filters parseDate now p = true
    · cases hfind : store.find? (rowKeyMatches p.userPatientId app_id) with
      | none =>
        obtain ⟨pd, t0, rest, hpd, hrec, hsave⟩ :=
          save_insert_spec parseDate pyHash now nowIso store ts app_id p hq
            hfind
        rw [hsave]
        dsimp only
        rw [countKey_append]
        omega
      | some r0 =>
        obtain ⟨pd, t0, trest, hpd, hrec, hstore, hone, hmany⟩ :=
          save_update_spec parseDate pyHash now nowIso store ts app_id p r0 hq
            hfind
        rw [hstore, countKey_map _ (hupdkeys ts app_id p t0 trest) store pid aid]
    · rw [save_skipped_of_not_quality parseDate pyHash now nowIso store ts
        app_id p (by revert hq; cases passes_quality_filters parseDate now p <;>
          simp)]

/-- Witness for C8: inserting the sample contact into an empty store
produces a row whose visit count (1) equals the size of its serialized
visit map. -/
theorem persisted_row_consistency_witness :
    (save_patient_data_to_db toIntParse (fun _ => 0) (90 * 86400) "x" [] 0 "14"
      samplePatient).action = "inserted" ∧
    (∃ nr es, (save_patient_data_to_db toIntParse (fun _ => 0) (90 * 86400) "x"
        [] 0 "14" samplePatient).store = [] ++ [nr] ∧
      nr.transactionDetails = some (.dict es) ∧
      nr.toplamIslemSayisi = es.length) := by
  refine ⟨by decide, ?_⟩
  exact (persisted_row_consistency toIntParse (fun _ => 0) (90 * 86400)
    "x").1 [] 0 "14" samplePatient (by decide)

/-- C9 counterexample: the synthesized visit id is not a function of the
visit's inputs alone.  CPython salts `hash` on `str` with a per-process
random seed, so two runs of the serialization in different processes are
two different hash functions; over the same single-transaction list they
produce different visitIds. -/
theorem visit_id_process_dependence :
    ¬ ((serialize_transactions (fun _ => 0) "t"
          [mkT "2025-01-01 00:00:00"]).map Prod.fst =
       (serialize_transactions (fun _ => 1) "t"
          [mkT "2025-01-01 00:00:00"]).map Prod.fst) := by decide

/-- C9 amended: with the process's hash function fixed, the synthesized
visit id is a deterministic function of the visit's index, timestamp and
doctor name — serializations of two transaction lists agreeing pointwise
on timestamps and doctor names produce identical visit-id keys, so
repeated runs under the same hash seed converge on the same map keys. -/
theorem visit_id_deterministic_within_process (pyHash : String → Int)
    (nowIso1 nowIso2 : String) (ts1 ts2 : List Transaction)
    (h : List.Forall₂ (fun t1 t2 => t1.TransactionDate = t2.TransactionDate ∧
      t1.DrName = t2.DrName) ts1 ts2) :
    (serialize_transactions pyHash nowIso1 ts1).map Prod.fst =
      (serialize_transactions pyHash nowIso2 ts2).map Prod.fst := by
  rw [serialize_transactions_spec, serialize_transactions_spec]
  suffices hgen : ∀ (ts1 ts2 : List Transaction),
      List.Forall₂ (fun t1 t2 => t1.TransactionDate = t2.TransactionDate ∧
        t1.DrName = t2.DrName) ts1 ts2 →
      ∀ i, (writer_dict_entries pyHash nowIso1 i ts1).map Prod.fst =
        (writer_dict_entries pyHash nowIso2 i ts2).map Prod.fst from
    hgen ts1 ts2 h 0
  intro l1 l2 hl
  induction hl with
  | nil => intro i; rfl
  | @cons a b la lb hab hrest ih =>
    intro i
    rw [writer_dict_entries, writer_dict_entries]
    simp only [List.map_cons]
    have hid : synth_transaction_id pyHash i a = synth_transaction_id pyHash i b := by
      unfold synth_transaction_id
      rw [hab.1, hab.2]
    rw [hid, ih (i + 1)]

/-- Witness for C9's amended determinism: two visits agreeing on timestamp
and doctor name but differing in every other field serialize, under the
same hash function, to the same visit-id key list. -/
theorem visit_id_deterministic_witness :
    List.Forall₂ (fun t1 t2 => t1.TransactionDate = t2.TransactionDate ∧
        t1.DrName = t2.DrName)
      [mkT "2025-01-01 00:00:00"]
      [Transaction.mk "p2" "d2" "DrName" "T2" "x" "y" "z" "w"
        "2025-01-01 00:00:00"] ∧
    (serialize_transactions (fun _ => 7) "a"
        [mkT "2025-01-01 00:00:00"]).map Prod.fst =
      (serialize_transactions (fun _ => 7) "b"
        [Transaction.mk "p2" "d2" "DrName" "T2" "x" "y" "z" "w"
          "2025-01-01 00:00:00"]).map Prod.fst := by
  refine ⟨List.Forall₂.cons ⟨rfl, rfl⟩ List.Forall₂.nil, ?_⟩
  exact visit_id_deterministic_within_process (fun _ => 7) "a" "b" _ _
    (List.Forall₂.cons ⟨rfl, rfl⟩ List.Forall₂.nil)

/-- A writer call that returns `True` reports `'inserted'`, `'updated'`
or `'skipped'`. -/
theorem save_ok_action (parseDate : String → Option Int)
    (pyHash : String → Int) (now : Int) (nowIso : String) (store : List DbRow)
    (ts : Int) (app_id : String) (p : EnrichedPatientData)
    (hok : (save_patient_data_to_db parseDate pyHash now nowIso store ts app_id
      p).ok = true) :
    (save_patient_data_to_db parseDate pyHash now nowIso store ts app_id
      p).action = "inserted" ∨
    (save_patient_data_to_db parseDate pyHash now nowIso store ts app_id
      p).action = "updated" ∨
    (save_patient_data_to_db parseDate pyHash now nowIso store ts app_id
      p).action = "skipped" := by
  by_cases hq : passes_quality_filters parseDate now p = true
  · cases hfind : store.find? (rowKeyMatches p.userPatientId app_id) with
    | none =>
      obtain ⟨pd, t0, rest, hpd, hrec, hsave⟩ :=
        save_insert_spec parseDate pyHash now nowIso store ts app_id p hq hfind
      rw [hsave]
      exact Or.inl rfl
    | some r0 =>
      obtain ⟨pd, t0, trest, hpd, hrec, hstore, hone, hmany⟩ :=
        save_update_spec parseDate pyHash now nowIso store ts app_id p r0 hq
          hfind
      by_cases h1 : countKey store p.userPatientId app_id = 1
      · exact Or.inr (Or.inl (hone h1).2)
      · rw [(hmany h1).1] at hok
        cases hok
  · rw [save_skipped_of_not_quality parseDate pyHash now nowIso store ts app_id
      p (by revert hq; cases passes_quality_filters parseDate now p <;> simp)]
    exact Or.inr (Or.inr rfl)

/-- The four counters of the batch loop always account for every contact
of the batch. -/
theorem save_batch_loop_sum (parseDate : String → Option Int)
    (pyHash : String → Int) (now : Int) (nowIso : String) (ts : Int)
    (app_id : String) (raises : Nat → Bool) :
    ∀ (ps : List EnrichedPatientData) (i : Nat) (pending : List DbRow)
      (n u sk f : Nat),
      (save_batch_loop parseDate pyHash now nowIso ts app_id raises i ps
          (pending, (n, u, sk, f))).2.1 +
        (save_batch_loop parseDate pyHash now nowIso ts app_id raises i ps
          (pending, (n, u, sk, f))).2.2.1 +
        (save_batch_loop parseDate pyHash now nowIso ts app_id raises i ps
          (pending, (n, u, sk, f))).2.2.2.1 +
        (save_batch_loop parseDate pyHash now nowIso ts app_id raises i ps
          (pending, (n, u, sk, f))).2.2.2.2 =
      n + u + sk + f + ps.length := by
  intro ps
  induction ps with
  | nil => intro i pending n u sk f; rfl
  | cons p rest ih =>
    intro i pending n u sk f
    rw [save_batch_loop]
    by_cases hraise : raises i = true
    · rw [if_pos hraise]
      rw [ih (i + 1) pending n u sk (f + 1)]
      simp
      omega
    · rw [if_neg hraise]
      dsimp only
      by_cases hok : (save_patient_data_to_db parseDate pyHash now nowIso
          pending ts app_id p).ok = true
      · rw [if_pos hok]
        rcases save_ok_action parseDate pyHash now nowIso pending ts app_id p
          hok with ha | ha | ha
        · rw [if_pos ha, ih]
          simp
          omega
        · rw [if_neg (by rw [ha]; decide), if_pos ha, ih]
          simp
          omega
        · rw [if_neg (by rw [ha]; decide), if_neg (by rw [ha]; decide),
            if_pos ha, ih]
          simp
          omega
      · rw [if_neg hok, ih]
        simp
        omega

/-- C5 counterexample to the claim as stated: a systemic error (the final
`connection.commit()` fails) rolls the whole batch back, yet the batch is
NOT reported as fully failed — the returned counters still report the one
quality-passing contact as a new record and report zero failures. -/
theorem batch_commit_failure_counterexample :
    (save_batch_to_db_optimized toIntParse (fun _ => 0) (90 * 86400) "x" true
      false (fun _ => false) 0 "14" [samplePatient] []).committed = [] ∧
    (save_batch_to_db_optimized toIntParse (fun _ => 0) (90 * 86400) "x" true
      false (fun _ => false) 0 "14" [samplePatient] []).commits = 0 ∧
    (save_batch_to_db_optimized toIntParse (fun _ => 0) (90 * 86400) "x" true
      false (fun _ => false) 0 "14" [samplePatient] []).new_records = 1 ∧
    (save_batch_to_db_optimized toIntParse (fun _ => 0) (90 * 86400) "x" true
      false (fun _ => false) 0 "14" [samplePatient] []).failed = 0 ∧
    ([samplePatient] : List EnrichedPatientData).length = 1 := by decide

/-- C5 amended: a systemic connect failure leaves the store untouched with
all counters zero; a systemic commit failure rolls the whole batch back
(committed store = input store, no commit) but the function still returns
the per-row counters accumulated before the failure — identical to the
counters of a successful run — rather than reporting the batch as fully
failed; on normal completion the batch commits exactly once, and the four
counters partition the batch: per-row failures are only counted in
`failed` and never abort the loop. -/
theorem batch_atomicity_amended (parseDate : String → Option Int)
    (pyHash : String → Int) (now : Int) (nowIso : String) (raises : Nat → Bool)
    (ts : Int) (app_id : String) (patients : List EnrichedPatientData)
    (store : List DbRow) :
    (∀ commitOk, save_batch_to_db_optimized parseDate pyHash now nowIso false
      commitOk raises ts app_id patients store = ⟨store, 0, 0, 0, 0, 0⟩) ∧
    ((save_batch_to_db_optimized parseDate pyHash now nowIso true false raises
        ts app_id patients store).committed = store ∧
     (save_batch_to_db_optimized parseDate pyHash now nowIso true false raises
        ts app_id patients store).commits = 0 ∧
     (save_batch_to_db_optimized parseDate pyHash now nowIso true false raises
        ts app_id patients store).new_records =
       (save_batch_to_db_optimized parseDate pyHash now nowIso true true raises
        ts app_id patients store).new_records ∧
     (save_batch_to_db_optimized parseDate pyHash now nowIso true false raises
        ts app_id patients store).updated_records =
       (save_batch_to_db_optimized parseDate pyHash now nowIso true true raises
        ts app_id patients store).updated_records ∧
     (save_batch_to_db_optimized parseDate pyHash now nowIso true false raises
        ts app_id patients store).skipped =
       (save_batch_to_db_optimized parseDate pyHash now nowIso true true raises
        ts app_id patients store).skipped ∧
     (save_batch_to_db_optimized parseDate pyHash now nowIso true false raises
        ts app_id patients store).failed =
       (save_batch_to_db_optimized parseDate pyHash now nowIso true true raises
        ts app_id patients store).failed) ∧
    ((save_batch_to_db_optimized parseDate pyHash now nowIso true true raises
        ts app_id patients store).commits = 1 ∧
     (save_batch_to_db_optimized parseDate pyHash now nowIso true true raises
        ts app_id patients store).new_records +
       (save_batch_to_db_optimized parseDate pyHash now nowIso true true raises
        ts app_id patients store).updated_records +
       (save_batch_to_db_optimized parseDate pyHash now nowIso true true raises
        ts app_id patients store).skipped +
       (save_batch_to_db_optimized parseDate pyHash now nowIso true true raises
        ts app_id patients store).failed = patients.length) := by
  refine ⟨?_, ?_, ?_⟩
  · intro commitOk
    rfl
  · unfold save_batch_to_db_optimized
    rw [if_neg (by decide : ¬ (true = false)), if_neg (by decide : ¬ (false = true)),
      if_pos rfl]
    exact ⟨rfl, rfl, rfl, rfl, rfl, rfl⟩
  · unfold save_batch_to_db_optimized
    rw [if_neg (by decide : ¬ (true = false)), if_pos rfl]
    refine ⟨rfl, ?_⟩
    have h := save_batch_loop_sum parseDate pyHash now nowIso ts app_id raises
      patients 0 store 0 0 0 0
    simpa using h

/-- An entry fails the retention predicate exactly when its timestamp is
present, non-empty, parsable, and strictly before the cutoff. -/
theorem cleaner_keeps_eq_false_iff (parseDate : String → Option Int)
    (cutoff : Int) (td : TransDetail) :
    cleaner_keeps parseDate cutoff td = false ↔
      ∃ s d, td.TransactionDate = some s ∧ s ≠ "" ∧ parseDate s = some d ∧
        d < cutoff := by
  unfold cleaner_keeps
  cases hdate : td.TransactionDate with
  | none => simp
  | some s =>
    dsimp only
    by_cases hs : s = ""
    · subst hs
      simp
    · rw [if_neg hs]
      cases hparse : parseDate s with
      | none => simp [hs, hparse]
      | some d =>
        simp only [decide_eq_false_iff_not, not_le, Option.some.injEq]
        constructor
        · intro h
          exact ⟨s, d, rfl, hs, hparse, h⟩
        · rintro ⟨s', d', hseq, -, hp', hlt⟩
          cases hseq
          rw [hparse] at hp'
          obtain rfl := Option.some.inj hp'
          exact hlt

/-- Full characterization of the per-entry loop of
`_clean_transactions_for_record`: under distinct keys it keeps exactly the
entries satisfying the retention predicate, counts the rest as removed,
and folds the latest-visit state over the kept in-window entries. -/
theorem clean_entries_loop_spec (parseDate : String → Option Int)
    (cutoff : Int) :
    ∀ (entries m : List (String × TransDetail)) (removed : Nat)
      (lD : Option Int) (lT : Option TransDetail),
      (∀ k ∈ m.map Prod.fst, k ∉ entries.map Prod.fst) →
      (entries.map Prod.fst).Nodup →
      clean_entries_loop parseDate cutoff entries (m, removed, lD, lT) =
        (m ++ entries.filter (fun e => cleaner_keeps parseDate cutoff e.2),
         removed +
           (entries.filter (fun e => !cleaner_keeps parseDate cutoff e.2)).length,
         latest_fold (kept_parsed parseDate cutoff entries) (lD, lT)) := by
  intro entries
  induction entries with
  | nil =>
    intro m removed lD lT hdisj hnodup
    simp [clean_entries_loop, kept_parsed, latest_fold]
  | cons e rest ih =>
    intro m removed lD lT hdisj hnodup
    obtain ⟨tid, td⟩ := e
    have htid_m : ∀ p ∈ m, p.1 ≠ tid := by
      intro p hp hpk
      exact hdisj p.1 (List.mem_map_of_mem _ hp) (by rw [hpk]; simp)
    have hnodup2 : (tid :: rest.map Prod.fst).Nodup := by simpa using hnodup
    have hnodup' : (rest.map Prod.fst).Nodup := (List.nodup_cons.mp hnodup2).2
    have htid_rest : tid ∉ rest.map Prod.fst := (List.nodup_cons.mp hnodup2).1
    have hdisj_rest : ∀ k ∈ m.map Prod.fst, k ∉ rest.map Prod.fst := by
      intro k hk hkr
      exact hdisj k hk (by simp [hkr])
    have hdisj' : ∀ k ∈ (m ++ [(tid, td)]).map Prod.fst,
        k ∉ rest.map Prod.fst := by
      intro k hk
      rw [List.map_append] at hk
      rcases List.mem_append.mp hk with hk | hk
      · exact hdisj_rest k hk
      · simp only [List.map_cons, List.map_nil, List.mem_singleton] at hk
        subst hk
        exact htid_rest
    rw [clean_entries_loop]
    cases hdate : td.TransactionDate with
    | none =>
      dsimp only
      rw [dictInsert_of_not_mem m tid td htid_m,
        ih (m ++ [(tid, td)]) removed lD lT hdisj' hnodup']
      have hkeep : cleaner_keeps parseDate cutoff td = true := by
        simp [cleaner_keeps, hdate]
      refine congrArg₂ Prod.mk ?_ (congrArg₂ Prod.mk ?_ ?_)
      · simp [List.filter_cons, hkeep]
      · simp [List.filter_cons, hkeep]
      · simp [kept_parsed, List.filterMap_cons, hdate]
    | some s =>
      dsimp only
      by_cases hs : s = ""
      · subst hs
        rw [if_pos rfl]
        rw [dictInsert_of_not_mem m tid td htid_m,
          ih (m ++ [(tid, td)]) removed lD lT hdisj' hnodup']
        have hkeep : cleaner_keeps parseDate cutoff td = true := by
          simp [cleaner_keeps, hdate]
        refine congrArg₂ Prod.mk ?_ (congrArg₂ Prod.mk ?_ ?_)
        · simp [List.filter_cons, hkeep]
        · simp [List.filter_cons, hkeep]
        · simp [kept_parsed, List.filterMap_cons, hdate]
      · rw [if_neg hs]
        cases hparse : parseDate s with
        | none =>
          dsimp only
          rw [dictInsert_of_not_mem m tid td htid_m,
            ih (m ++ [(tid, td)]) removed lD lT hdisj' hnodup']
          have hkeep : cleaner_keeps parseDate cutoff td = true := by
            simp [cleaner_keeps, hdate, hs, hparse]
          refine congrArg₂ Prod.mk ?_ (congrArg₂ Prod.mk ?_ ?_)
          · simp [List.filter_cons, hkeep]
          · simp [List.filter_cons, hkeep]
          · simp [kept_parsed, List.filterMap_cons, hdate, hs, hparse]
        | some d =>
          dsimp only
          by_cases hcut : cutoff ≤ d
          · rw [if_pos hcut]
            have hkeep : cleaner_keeps parseDate cutoff td = true := by
              simp [cleaner_keeps, hdate, hs, hparse, hcut]
            have hkp : kept_parsed parseDate cutoff ((tid, td) :: rest) =
                (d, td) :: kept_parsed parseDate cutoff rest := by
              unfold kept_parsed
              rw [List.filterMap_cons]
              simp [hdate, hs, hparse, hcut]
            cases lD with
            | none =>
              dsimp only
              rw [dictInsert_of_not_mem m tid td htid_m,
                ih (m ++ [(tid, td)]) removed (some d) (some td) hdisj' hnodup']
              refine congrArg₂ Prod.mk ?_ (congrArg₂ Prod.mk ?_ ?_)
              · simp [List.filter_cons, hkeep]
              · simp [List.filter_cons, hkeep]
              · rw [hkp]
                rfl
            | some l =>
              dsimp only
              by_cases hl : l < d
              · rw [if_pos hl]
                rw [dictInsert_of_not_mem m tid td htid_m,
                  ih (m ++ [(tid, td)]) removed (some d) (some td) hdisj'
                    hnodup']
                refine congrArg₂ Prod.mk ?_ (congrArg₂ Prod.mk ?_ ?_)
                · simp [List.filter_cons, hkeep]
                · simp [List.filter_cons, hkeep]
                · rw [hkp]
                  show _ = latest_fold _
                    (match some l with
                     | none => (some d, some td)
                     | some l' => if l' < d then (some d, some td)
                       else (some l, lT))
                  dsimp only
                  rw [if_pos hl]
              · rw [if_neg hl]
                rw [dictInsert_of_not_mem m tid td htid_m,
                  ih (m ++ [(tid, td)]) removed (some l) lT hdisj' hnodup']
                refine congrArg₂ Prod.mk ?_ (congrArg₂ Prod.mk ?_ ?_)
                · simp [List.filter_cons, hkeep]
                · simp [List.filter_cons, hkeep]
                · rw [hkp]
                  show _ = latest_fold _
                    (match some l with
                     | none => (some d, some td)
                     | some l' => if l' < d then (some d, some td)
                       else (some l, lT))
                  dsimp only
                  rw [if_neg hl]
          · rw [if_neg hcut]
            rw [ih m (removed + 1) lD lT hdisj_rest hnodup']
            have hkeep : cleaner_keeps parseDate cutoff td = false := by
              simp only [cleaner_keeps, hdate]
              rw [if_neg hs, hparse]
              simpa using hcut
            refine congrArg₂ Prod.mk ?_ (congrArg₂ Prod.mk ?_ ?_)
            · simp [List.filter_cons, hkeep]
            · simp only [List.filter_cons, hkeep]
              simp only [Bool.not_false, if_true, List.length_cons]
              omega
            · simp [kept_parsed, List.filterMap_cons, hdate, hs, hparse, hcut]

/-- Once set, the latest-visit state stays set, dominates its start, and
tracks a member of the list. -/
theorem latest_fold_mem_aux :
    ∀ (l : List (Int × TransDetail)) (d0 : Int) (td0 : TransDetail),
      ∃ d td, latest_fold l (some d0, some td0) = (some d, some td) ∧
        ((d, td) = (d0, td0) ∨ (d, td) ∈ l) ∧ d0 ≤ d ∧ ∀ p ∈ l, p.1 ≤ d := by
  intro l
  induction l with
  | nil =>
    intro d0 td0
    exact ⟨d0, td0, rfl, Or.inl rfl, le_rfl, by intro p hp; cases hp⟩
  | cons q rest ih =>
    intro d0 td0
    obtain ⟨d1, td1⟩ := q
    rw [latest_fold]
    by_cases hl : d0 < d1
    · rw [if_pos hl]
      obtain ⟨d, td, heq, hmem, hle, hall⟩ := ih d1 td1
      refine ⟨d, td, heq, ?_, by omega, ?_⟩
      · rcases hmem with h | h
        · exact Or.inr (by rw [h]; exact List.mem_cons_self _ _)
        · exact Or.inr (List.mem_cons_of_mem _ h)
      · intro p hp
        rcases List.mem_cons.mp hp with h | h
        · rw [h]
          dsimp only
          omega
        · exact hall p h
    · rw [if_neg hl]
      obtain ⟨d, td, heq, hmem, hle, hall⟩ := ih d0 td0
      refine ⟨d, td, heq, ?_, hle, ?_⟩
      · rcases hmem with h | h
        · exact Or.inl h
        · exact Or.inr (List.mem_cons_of_mem _ h)
      · intro p hp
        rcases List.mem_cons.mp hp with h | h
        · rw [h]
          dsimp only
          omega
        · exact hall p h

/-- Record-level characterization of `_clean_transactions_for_record` on a
decoded dict with distinct keys. -/
theorem clean_record_spec (parseDate : String → Option Int) (cutoff : Int)
    (rid : Nat) (rpid : Int) (rcount : Nat)
    (entries : List (String × TransDetail))
    (hnodup : (entries.map Prod.fst).Nodup) :
    (clean_transactions_for_record parseDate cutoff
      ⟨rid, rpid, rcount, .dict entries⟩).removed_count =
        (entries.filter (fun e => !cleaner_keeps parseDate cutoff e.2)).length ∧
    ((clean_transactions_for_record parseDate cutoff
      ⟨rid, rpid, rcount, .dict entries⟩).has_changes = true ↔
        (entries.filter (fun e => cleaner_keeps parseDate cutoff e.2)).length ≠
          entries.length) ∧
    ((clean_transactions_for_record parseDate cutoff
      ⟨rid, rpid, rcount, .dict entries⟩).has_changes = false →
      (clean_transactions_for_record parseDate cutoff
        ⟨rid, rpid, rcount, .dict entries⟩).new_transaction_json = .dict entries ∧
      (clean_transactions_for_record parseDate cutoff
        ⟨rid, rpid, rcount, .dict entries⟩).new_transaction_count = rcount) ∧
    ((clean_transactions_for_record parseDate cutoff
      ⟨rid, rpid, rcount, .dict entries⟩).has_changes = true →
      (clean_transactions_for_record parseDate cutoff
        ⟨rid, rpid, rcount, .dict entries⟩).new_transaction_json =
          .dict (entries.filter (fun e => cleaner_keeps parseDate cutoff e.2)) ∧
      (clean_transactions_for_record parseDate cutoff
        ⟨rid, rpid, rcount, .dict entries⟩).new_transaction_count =
          (entries.filter (fun e => cleaner_keeps parseDate cutoff e.2)).length ∧
      (latest_fold (kept_parsed parseDate cutoff entries) (none, none)
          = (none, none) →
        (clean_transactions_for_record parseDate cutoff
          ⟨rid, rpid, rcount, .dict entries⟩).latest_transaction_date = none ∧
        (clean_transactions_for_record parseDate cutoff
          ⟨rid, rpid, rcount, .dict entries⟩).latest_doctor = none ∧
        (clean_transactions_for_record parseDate cutoff
          ⟨rid, rpid, rcount, .dict entries⟩).latest_dept = none ∧
        (clean_transactions_for_record parseDate cutoff
          ⟨rid, rpid, rcount, .dict entries⟩).latest_branch = none) ∧
      (∀ dd tdd,
        latest_fold (kept_parsed parseDate cutoff entries) (none, none)
            = (some dd, some tdd) →
        (clean_transactions_for_record parseDate cutoff
          ⟨rid, rpid, rcount, .dict entries⟩).latest_transaction_date
            = some dd ∧
        (clean_transactions_for_record parseDate cutoff
          ⟨rid, rpid, rcount, .dict entries⟩).latest_doctor = tdd.DrName ∧
        (clean_transactions_for_record parseDate cutoff
          ⟨rid, rpid, rcount, .dict entries⟩).latest_dept = tdd.DeptName ∧
        (clean_transactions_for_record parseDate cutoff
          ⟨rid, rpid, rcount, .dict entries⟩).latest_branch = tdd.BranchName)) := by
  have hloop := clean_entries_loop_spec parseDate cutoff entries [] 0 none none
    (by intro k hk; cases hk) hnodup
  unfold clean_transactions_for_record
  dsimp only
  rw [hloop]
  dsimp only
  simp only [List.nil_append]
  by_cases hlen : (entries.filter
      (fun e => cleaner_keeps parseDate cutoff e.2)).length = entries.length
  · rw [if_pos hlen]
    refine ⟨by simp, by simp [hlen], fun _ => ⟨rfl, rfl⟩, fun hch => ?_⟩
    cases hch
  · rw [if_neg hlen]
    cases hfold : latest_fold (kept_parsed parseDate cutoff entries)
        (none, none) with
    | mk foldD foldT =>
      cases foldT with
      | some tdd =>
        dsimp only
        refine ⟨by simp, by simp [hlen], fun hch => ?_, fun _ => ⟨rfl, by simp, ?_, ?_⟩⟩
        · cases hch
        · intro hnone
          simp at hnone
        · intro dd tdd' heq
          rw [Prod.mk.injEq] at heq
          obtain ⟨h1, h2⟩ := heq
          obtain rfl := Option.some.inj h2
          rw [h1]
          exact ⟨rfl, rfl, rfl, rfl⟩
      | none =>
        dsimp only
        refine ⟨by simp, by simp [hlen], fun hch => ?_, fun _ => ⟨rfl, by simp, ?_, ?_⟩⟩
        · cases hch
        · intro hnone
          exact ⟨rfl, rfl, rfl, rfl⟩
        · intro dd tdd' heq
          simp at heq

/-- Shape of the latest-visit fold from the initial `(None, None)` state:
empty input leaves it cleared, non-empty input yields a maximal member. -/
theorem latest_fold_start_spec (l : List (Int × TransDetail)) :
    (l = [] → latest_fold l (none, none) = (none, none)) ∧
    (∀ d td, latest_fold l (none, none) = (some d, some td) →
      (d, td) ∈ l ∧ ∀ p ∈ l, p.1 ≤ d) ∧
    (l ≠ [] → ∃ d td, latest_fold l (none, none) = (some d, some td)) := by
  refine ⟨?_, ?_, ?_⟩
  · rintro rfl
    rfl
  · intro d td heq
    cases l with
    | nil => simp [latest_fold] at heq
    | cons q rest =>
      obtain ⟨d1, td1⟩ := q
      have hstep : latest_fold ((d1, td1) :: rest) (none, none) =
          latest_fold rest (some d1, some td1) := rfl
      rw [hstep] at heq
      obtain ⟨d', td', heq', hmem, hle, hall⟩ := latest_fold_mem_aux rest d1 td1
      rw [heq'] at heq
      rw [Prod.mk.injEq] at heq
      obtain rfl := Option.some.inj heq.1
      obtain rfl := Option.some.inj heq.2
      constructor
      · rcases hmem with h | h
        · rw [Prod.mk.injEq] at h
          rw [h.1, h.2]
          exact List.mem_cons_self _ _
        · exact List.mem_cons_of_mem _ h
      · intro p hp
        rcases List.mem_cons.mp hp with h | h
        · rw [h]
          exact hle
        · exact hall p h
  · intro hne
    cases l with
    | nil => exact absurd rfl hne
    | cons q rest =>
      obtain ⟨d1, td1⟩ := q
      obtain ⟨d', td', heq', -, -, -⟩ := latest_fold_mem_aux rest d1 td1
      exact ⟨d', td', heq'⟩

/-- Phase B's driver never deletes a row and returns the cleaned-row and
pruned-visit counts. -/
theorem cleanup_records_spec (parseDate : String → Option Int) (cutoff : Int) :
    ∀ store : List DbRow,
      (cleanup_old_transactions_in_records parseDate cutoff store).1.length =
        store.length ∧
      (cleanup_old_transactions_in_records parseDate cutoff store).2.1 =
        (store.filter (phaseB_row_changed parseDate cutoff)).length ∧
      (cleanup_old_transactions_in_records parseDate cutoff store).2.2 =
        (store.map (phaseB_row_pruned parseDate cutoff)).sum := by
  intro store
  induction store with
  | nil => exact ⟨rfl, rfl, rfl⟩
  | cons r rs ih =>
    obtain ⟨ih1, ih2, ih3⟩ := ih
    rw [cleanup_old_transactions_in_records]
    cases hj : r.transactionDetails with
    | none =>
      dsimp only
      have hch : phaseB_row_changed parseDate cutoff r = false := by
        simp [phaseB_row_changed, hj]
      have hpr : phaseB_row_pruned parseDate cutoff r = 0 := by
        simp [phaseB_row_pruned, hj]
      refine ⟨by simp [ih1], ?_, ?_⟩
      · rw [List.filter_cons, hch]
        simpa using ih2
      · rw [List.map_cons, hpr, List.sum_cons]
        simpa using ih3
    | some j =>
      dsimp only
      by_cases hscope : r.toplamIslemSayisi > 1 ∧ j ≠ .dict []
      · rw [if_pos hscope]
        by_cases hchg : (clean_transactions_for_record parseDate cutoff
            ⟨r.id, r.userPatientId, r.toplamIslemSayisi, j⟩).has_changes = true
        · rw [if_pos hchg]
          dsimp only
          have hch : phaseB_row_changed parseDate cutoff r = true := by
            simp [phaseB_row_changed, hj, hscope, hchg]
          have hpr : phaseB_row_pruned parseDate cutoff r =
              (clean_transactions_for_record parseDate cutoff
                ⟨r.id, r.userPatientId, r.toplamIslemSayisi, j⟩).removed_count := by
            simp [phaseB_row_pruned, hj, hscope, hchg]
          refine ⟨by simp [ih1], ?_, ?_⟩
          · rw [List.filter_cons, hch]
            simp only [if_true, List.length_cons]
            omega
          · rw [List.map_cons, hpr, List.sum_cons]
            omega
        · rw [if_neg hchg]
          have hch : phaseB_row_changed parseDate cutoff r = false := by
            simp only [phaseB_row_changed, hj, if_pos hscope]
            revert hchg
            cases (clean_transactions_for_record parseDate cutoff
              ⟨r.id, r.userPatientId, r.toplamIslemSayisi, j⟩).has_changes <;>
              simp
          have hpr : phaseB_row_pruned parseDate cutoff r = 0 := by
            simp only [phaseB_row_pruned, hj, if_pos hscope]
            revert hchg
            cases (clean_transactions_for_record parseDate cutoff
              ⟨r.id, r.userPatientId, r.toplamIslemSayisi, j⟩).has_changes <;>
              simp
          refine ⟨by simp [ih1], ?_, ?_⟩
          · rw [List.filter_cons, hch]
            simpa using ih2
          · rw [List.map_cons, hpr, List.sum_cons]
            simpa using ih3
      · rw [if_neg hscope]
        have hch : phaseB_row_changed parseDate cutoff r = false := by
          simp only [phaseB_row_changed, hj, if_neg hscope]
        have hpr : phaseB_row_pruned parseDate cutoff r = 0 := by
          simp only [phaseB_row_pruned, hj, if_neg hscope]
        refine ⟨by simp [ih1], ?_, ?_⟩
        · rw [List.filter_cons, hch]
          simpa using ih2
        · rw [List.map_cons, hpr, List.sum_cons]
          simpa using ih3

/-- C7: on a row in Phase B's scope, entries whose parsed timestamp is
strictly before the cutoff are removed (missing or unparsable timestamps
are retained); when entries were removed the row is updated with visit
count = number of remaining entries, the re-encoded remaining map, and the
latest-visit summary recomputed from the remaining in-window entries
(cleared when none remain); the row itself is never deleted; and the
driver returns the cleaned-row and pruned-visit counts. -/
theorem retention_phaseB_spec (parseDate : String → Option Int) (cutoff : Int) :
    (∀ (record : CleanupRecord) (entries : List (String × TransDetail)),
      record.transactionDetails = .dict entries →
      (entries.map Prod.fst).Nodup →
      (clean_transactions_for_record parseDate cutoff record).removed_count =
        (entries.filter
          (fun e => !cleaner_keeps parseDate cutoff e.2)).length ∧
      (∀ td : TransDetail, cleaner_keeps parseDate cutoff td = false ↔
        ∃ s d, td.TransactionDate = some s ∧ s ≠ "" ∧ parseDate s = some d ∧
          d < cutoff) ∧
      ((clean_transactions_for_record parseDate cutoff record).has_changes
          = true →
        (clean_transactions_for_record parseDate cutoff
          record).new_transaction_json =
            .dict (entries.filter (fun e => cleaner_keeps parseDate cutoff e.2)) ∧
        (clean_transactions_for_record parseDate cutoff
          record).new_transaction_count =
            (entries.filter (fun e => cleaner_keeps parseDate cutoff e.2)).length ∧
        (kept_parsed parseDate cutoff entries = [] →
          (clean_transactions_for_record parseDate cutoff
            record).latest_transaction_date = none ∧
          (clean_transactions_for_record parseDate cutoff
            record).latest_doctor = none ∧
          (clean_transactions_for_record parseDate cutoff
            record).latest_dept = none ∧
          (clean_transactions_for_record parseDate cutoff
            record).latest_branch = none) ∧
        (kept_parsed parseDate cutoff entries ≠ [] →
          ∃ dd tdd, (dd, tdd) ∈ kept_parsed parseDate cutoff entries ∧
            (∀ p ∈ kept_parsed parseDate cutoff entries, p.1 ≤ dd) ∧
            (clean_transactions_for_record parseDate cutoff
              record).latest_transaction_date = some dd ∧
            (clean_transactions_for_record parseDate cutoff
              record).latest_doctor = tdd.DrName ∧
            (clean_transactions_for_record parseDate cutoff
              record).latest_dept = tdd.DeptName ∧
            (clean_transactions_for_record parseDate cutoff
              record).latest_branch = tdd.BranchName))) ∧
    (∀ store : List DbRow,
      (cleanup_old_transactions_in_records parseDate cutoff store).1.length =
        store.length ∧
      (cleanup_old_transactions_in_records parseDate cutoff store).2.1 =
        (store.filter (phaseB_row_changed parseDate cutoff)).length ∧
      (cleanup_old_transactions_in_records parseDate cutoff store).2.2 =
        (store.map (phaseB_row_pruned parseDate cutoff)).sum) := by
  constructor
  · intro record entries hdict hnodup
    obtain ⟨rid, rpid, rcount, rdet⟩ := record
    cases hdict
    obtain ⟨hrem, hiff, hnc, hchspec⟩ :=
      clean_record_spec parseDate cutoff rid rpid rcount entries hnodup
    refine ⟨hrem, fun td => cleaner_keeps_eq_false_iff parseDate cutoff td,
      fun hch => ?_⟩
    obtain ⟨hjson, hcount, hfnone, hfsome⟩ := hchspec hch
    refine ⟨hjson, hcount, ?_, ?_⟩
    · intro hkp
      exact hfnone (by rw [hkp]; rfl)
    · intro hkp
      obtain ⟨dd, tdd, heq⟩ :=
        ((latest_fold_start_spec (kept_parsed parseDate cutoff entries)).2.2) hkp
      obtain ⟨hmem, hmax⟩ :=
        ((latest_fold_start_spec (kept_parsed parseDate cutoff entries)).2.1)
          dd tdd heq
      obtain ⟨hdate, hdr, hdept, hbr⟩ := hfsome dd tdd heq
      exact ⟨dd, tdd, hmem, hmax, hdate, hdr, hdept, hbr⟩
  · exact cleanup_records_spec parseDate cutoff

/-- Witness for C7: a record with 3 embedded visits, two dated before the
cutoff (100) and one after, ends with 2 pruned visits, a remaining count
of 1, and latest-visit summary fields matching the surviving visit. -/
theorem retention_phaseB_spec_witness :
    (clean_transactions_for_record toIntParse 100
      ⟨1, 1, 3, .dict [("a", mkTD "50" "D1"), ("b", mkTD "60" "D2"),
        ("c", mkTD "150" "D3")]⟩).removed_count = 2 ∧
    (clean_transactions_for_record toIntParse 100
      ⟨1, 1, 3, .dict [("a", mkTD "50" "D1"), ("b", mkTD "60" "D2"),
        ("c", mkTD "150" "D3")]⟩).has_changes = true ∧
    (clean_transactions_for_record toIntParse 100
      ⟨1, 1, 3, .dict [("a", mkTD "50" "D1"), ("b", mkTD "60" "D2"),
        ("c", mkTD "150" "D3")]⟩).new_transaction_count = 1 ∧
    (clean_transactions_for_record toIntParse 100
      ⟨1, 1, 3, .dict [("a", mkTD "50" "D1"), ("b", mkTD "60" "D2"),
        ("c", mkTD "150" "D3")]⟩).latest_transaction_date = some 150 ∧
    (clean_transactions_for_record toIntParse 100
      ⟨1, 1, 3, .dict [("a", mkTD "50" "D1"), ("b", mkTD "60" "D2"),
        ("c", mkTD "150" "D3")]⟩).latest_doctor = some "D3" := by
  have h := (retention_phaseB_spec toIntParse 100).1
    ⟨1, 1, 3, .dict [("a", mkTD "50" "D1"), ("b", mkTD "60" "D2"),
      ("c", mkTD "150" "D3")]⟩
    [("a", mkTD "50" "D1"), ("b", mkTD "60" "D2"), ("c", mkTD "150" "D3")]
    rfl (by decide)
  refine ⟨?_, by decide, by decide, by decide, by decide⟩
  rw [h.1]
  decide

/-- C10: the enrichment-path window filter drops every visit whose
timestamp text is empty or fails to parse, regardless of the window or the
first-contact timestamp; the retention cleaner's Phase B applies the
opposite policy and retains every entry whose timestamp is absent, empty,
or unparsable. -/
theorem unparsable_timestamp_policies (parseDate : String → Option Int) :
    (∀ (now days_back : Int) (fmd : Option Int) (ts : List Transaction)
       (t : Transaction),
      t.TransactionDate = "" ∨ parseDate t.TransactionDate = none →
      t ∉ filter_recent_transactions parseDate now ts days_back fmd) ∧
    (∀ (cutoff : Int) (record : CleanupRecord)
       (entries : List (String × TransDetail)) (tid : String)
       (td : TransDetail),
      record.transactionDetails = .dict entries →
      (entries.map Prod.fst).Nodup →
      (tid, td) ∈ entries →
      (td.TransactionDate = none ∨ td.TransactionDate = some "" ∨
        ∀ s, td.TransactionDate = some s → parseDate s = none) →
      ∃ es, (clean_transactions_for_record parseDate cutoff
          record).new_transaction_json = .dict es ∧ (tid, td) ∈ es) := by
  constructor
  · intro now days_back fmd ts t hbad hmem
    rw [filter_recent_transactions, List.mem_filter] at hmem
    have hk := hmem.2
    unfold keep_recent_transaction at hk
    rcases hbad with hb | hb
    · rw [if_pos hb] at hk
      cases hk
    · by_cases he : t.TransactionDate = ""
      · rw [if_pos he] at hk
        cases hk
      · rw [if_neg he, hb] at hk
        simp at hk
  · intro cutoff record entries tid td hdict hnodup hmem hbad
    obtain ⟨rid, rpid, rcount, rdet⟩ := record
    cases hdict
    have hkeep : cleaner_keeps parseDate cutoff td = true := by
      rcases hbad with hb | hb | hb
      · simp [cleaner_keeps, hb]
      · simp [cleaner_keeps, hb]
      · cases hd : td.TransactionDate with
        | none => simp [cleaner_keeps, hd]
        | some s =>
          by_cases hs : s = ""
          · simp [cleaner_keeps, hd, hs]
          · simp [cleaner_keeps, hd, hs, hb s hd]
    obtain ⟨hrem, hiff, hnc, hchspec⟩ :=
      clean_record_spec parseDate cutoff rid rpid rcount entries hnodup
    by_cases hch : (clean_transactions_for_record parseDate cutoff
        ⟨rid, rpid, rcount, .dict entries⟩).has_changes = true
    · obtain ⟨hjson, -, -, -⟩ := hchspec hch
      exact ⟨_, hjson, List.mem_filter.mpr ⟨hmem, hkeep⟩⟩
    · have hfalse : (clean_transactions_for_record parseDate cutoff
          ⟨rid, rpid, rcount, .dict entries⟩).has_changes = false := by
        revert hch
        cases (clean_transactions_for_record parseDate cutoff
          ⟨rid, rpid, rcount, .dict entries⟩).has_changes <;> simp
      obtain ⟨hjson, -⟩ := hnc hfalse
      exact ⟨entries, hjson, hmem⟩

/-- Witness for C10: a visit with an empty timestamp and one with an
unparsable timestamp are both dropped by the window filter, while the
cleaner retains an entry with no timestamp even as it prunes an old
one. -/
theorem unparsable_timestamp_policies_witness :
    (mkT "") ∉ filter_recent_transactions toIntParse 10000000 [mkT ""] 90
      none ∧
    (mkT "oops") ∉ filter_recent_transactions toIntParse 10000000
      [mkT "oops"] 90 none ∧
    (∃ es, (clean_transactions_for_record toIntParse 100
        ⟨1, 1, 2, .dict [("u", ({} : TransDetail)), ("b", mkTD "50" "D")]⟩
        ).new_transaction_json = .dict es ∧ ("u", ({} : TransDetail)) ∈ es) ∧
    (clean_transactions_for_record toIntParse 100
      ⟨1, 1, 2, .dict [("u", ({} : TransDetail)), ("b", mkTD "50" "D")]⟩
      ).removed_count = 1 := by
  refine ⟨?_, ?_, ?_, by decide⟩
  · exact (unparsable_timestamp_policies toIntParse).1 10000000 90 none
      [mkT ""] (mkT "") (Or.inl rfl)
  · exact (unparsable_timestamp_policies toIntParse).1 10000000 90 none
      [mkT "oops"] (mkT "oops") (Or.inr (by decide))
  · exact (unparsable_timestamp_policies toIntParse).2 100
      ⟨1, 1, 2, .dict [("u", ({} : TransDetail)), ("b", mkTD "50" "D")]⟩
      [("u", ({} : TransDetail)), ("b", mkTD "50" "D")] "u" ({} : TransDetail)
      rfl (by decide) (by decide) (Or.inl rfl)

end CronJops
